import Mathlib

/-!
Verification development for `StaticProofManager.create_presentation`
(`src/aries_cloudagent/protocols/static_proof/v1_0/manager.py`).

The Python manager is embedded shallowly: Python dicts become association
lists (insertion ordered, overwrite-in-place semantics), the external
collaborators (credential store, ledger, tails cache, cryptographic holder)
become an `Env` record of functions returning `Except`, and every
observable interaction is recorded in an event trace.  The embedding is
executable, so concrete scenarios evaluate by `decide` / `rfl`.
-/

namespace StaticProof

/-! ## Association lists modelling Python dicts (string keys) -/

abbrev AList (α : Type) := List (String × α)

def findA {α : Type} : AList α → String → Option α
  | [], _ => none
  | (k', v) :: rest, k => if k' = k then some v else findA rest k

def hasKey {α : Type} (m : AList α) (k : String) : Bool :=
  (findA m k).isSome

/-- Python `d[k] = v`: overwrite in place if the key exists, else append. -/
def insertA {α : Type} : AList α → String → α → AList α
  | [], k, v => [(k, v)]
  | (k', v') :: rest, k, v =>
      if k' = k then (k, v) :: rest else (k', v') :: insertA rest k v

/-! Nat-keyed dicts (for the timestamp-indexed revocation-state map). -/

abbrev NList (α : Type) := List (Nat × α)

def findNL {α : Type} : NList α → Nat → Option α
  | [], _ => none
  | (k', v) :: rest, k => if k' = k then some v else findNL rest k

def insertNL {α : Type} : NList α → Nat → α → NList α
  | [], k, v => [(k, v)]
  | (k', v') :: rest, k, v =>
      if k' = k then (k, v) :: rest else (k', v') :: insertNL rest k v

/-! ## Data model -/

/-- A non-revocation interval `{from?, to?}` (epoch seconds). -/
structure Interval where
  fro : Option Nat
  til : Option Nat
deriving DecidableEq, Repr

/-- One entry of a proof request section: the only field this manager
consults is the optional non-revocation interval of the group. -/
structure ReqItem where
  non_revoked : Option Interval
deriving DecidableEq, Repr

structure ProofRequest where
  requested_attributes : AList ReqItem
  requested_predicates : AList ReqItem
deriving DecidableEq, Repr

/-- One entry of a requested-credentials section: `{cred_id, timestamp?}`. -/
structure ReqCred where
  cred_id : String
  timestamp : Option Nat
deriving DecidableEq, Repr

/-- The requested-credentials mapping.  A section is `none` when the
corresponding dict key is absent altogether (lines 58/64 of the manager use
`.get(..., {})`, but lines 197/201 index the keys directly). -/
structure RequestedCredentials where
  requested_attributes : Option (AList ReqCred)
  requested_predicates : Option (AList ReqCred)
deriving DecidableEq, Repr

/-- The JSON credential returned by `holder.get_credential`, restricted to
the fields this manager reads.  `rev_reg_id`/`cred_rev_id` are `none` when
the JSON value is null. -/
structure CredentialRecord where
  schema_id : String
  cred_def_id : String
  rev_reg_id : Option String
  cred_rev_id : Option String
deriving DecidableEq, Repr

/-- Python truthiness of an optional string (`None` and `""` are falsy). -/
def truthyStr : Option String → Bool
  | none => false
  | some s => s ≠ ""

structure HolderError where
  error_code : String
  message : String
deriving DecidableEq, Repr

/-- Errors surfaced by the build. -/
inductive Err where
  /-- An `IndyHolderError` (credential store or cryptographic holder). -/
  | holder (error_code message : String)
  /-- A ledger failure. -/
  | ledger (message : String)
  /-- A Python `KeyError` from direct dict indexing. -/
  | keyError (key : String)
deriving DecidableEq, Repr

/-- The internal per-referent record (`requested_referents` values):
`{cred_id, non_revoked?, timestamp?}`. -/
structure Precis where
  cred_id : String
  non_revoked : Option Interval
  timestamp : Option Nat
deriving DecidableEq, Repr

/-- A `revoc_reg_deltas` cache value:
`(rev_reg_id, credential_id, delta, delta_timestamp)`. -/
structure DeltaEntry where
  rev_reg_id : String
  cred_id : String
  delta : String
  timestamp : Nat
deriving DecidableEq, Repr

inductive TxnKind where
  | getSchema
  | getRevocRegDelta
deriving DecidableEq, Repr

/-- Observable interactions with the collaborators, recorded in order.
`fetchDelta` additionally records the credential id of the triggering
referent and `createRevState` the credential id the state is built for, so
that attribution properties can be stated; neither is passed to the
collaborator by the code. -/
inductive Event where
  | getCredential (cred_id : String)
  | acquireLedger (identifier : String) (txn : TxnKind)
  | releaseLedger
  | fetchSchema (schema_id : String)
  | fetchCredDef (cred_def_id : String)
  | fetchRevRegDef (rev_reg_id : String)
  | fetchDelta (rev_reg_id : String) (fro til : Nat) (trigCred : String)
  | getTails (rev_reg_id : String)
  | createRevState (rev_reg_id : String) (timestamp : Nat) (cred_id : String)
  | logRemovedTimestamp (sec reft cred_id : String)
  | logError (error_code message : String)
  | holderCall (rc : RequestedCredentials)
deriving DecidableEq, Repr

/-- External collaborators.  Deterministic oracles: each call is a pure
function of its arguments, failures modelled with `Except`. -/
structure Env where
  get_credential : String → Except HolderError CredentialRecord
  get_schema : String → Except String String
  get_credential_definition : String → Except String String
  get_revoc_reg_def : String → Except String String
  get_revoc_reg_delta : String → Nat → Nat → Except String (String × Nat)
  get_or_fetch_local_tails_path : String → Except String String
  create_revocation_state :
    Option String → String → String → Nat → String → Except HolderError String
  create_presentation :
    ProofRequest → RequestedCredentials → AList String → AList String →
      AList (NList String) → Except HolderError String

/-! ## Phase 1: referent extraction -/

/-- Modelled from the spec: `indy_proof_req2non_revoc_intervals`
(`aries_cloudagent/indy/models/xform.py`, not under `src/`).  Per
spec §4.1, it produces, for each referent of the proof request carrying a
group-level `non_revoked` interval, that interval; referents with no
group-level interval are left unresolved. -/
def nonRevocIntervals (pr : ProofRequest) : AList Interval :=
  (pr.requested_attributes ++ pr.requested_predicates).foldl
    (fun acc p =>
      match p.2.non_revoked with
      | some iv => insertA acc p.1 iv
      | none => acc)
    []

/-- The `requested_referents` value built for one requested-credentials
entry: its credential id, plus the interval when the referent is both in
the proof request's section and in the interval map. -/
def toPrecis (reqItems : AList ReqItem) (nri : AList Interval)
    (p : String × ReqCred) : String × Precis :=
  (p.1, { cred_id := p.2.cred_id
          non_revoked := if hasKey reqItems p.1 then findA nri p.1 else none
          timestamp := none })

/-- Lines 60-69 for one section: for each referent of the requested
credentials, record its credential id, and its interval when the referent
is both in the proof request's section and in the interval map. -/
def buildSection (reqItems : AList ReqItem) (nri : AList Interval) :
    List (String × ReqCred) → AList Precis → AList Precis
  | [], acc => acc
  | p :: rest, acc =>
      buildSection reqItems nri rest (insertA acc p.1 (toPrecis reqItems nri p).2)

/-- Lines 56-69: build `requested_referents` from both sections. -/
def buildRequestedReferents (pr : ProofRequest) (rc : RequestedCredentials) :
    AList Precis :=
  let nri := nonRevocIntervals pr
  buildSection pr.requested_predicates nri (rc.requested_predicates.getD [])
    (buildSection pr.requested_attributes nri (rc.requested_attributes.getD []) [])

/-! ## Phase 2: credential fetching (lines 71-76) -/

def fetchCredentials (env : Env) :
    List (String × Precis) → AList CredentialRecord →
    Except Err (AList CredentialRecord) × List Event
  | [], creds => (.ok creds, [])
  | (_, p) :: rest, creds =>
    if hasKey creds p.cred_id then fetchCredentials env rest creds
    else
      match env.get_credential p.cred_id with
      | .error e =>
          (.error (.holder e.error_code e.message), [.getCredential p.cred_id])
      | .ok c =>
          let r := fetchCredentials env rest (insertA creds p.cred_id c)
          (r.1, .getCredential p.cred_id :: r.2)

/-! ## Phase 3: superfluous-timestamp removal (lines 77-86) -/

/-- The log events of the cleanup pass for one non-revocable entry: the
removal is logged only when the popped value is truthy (a `0` timestamp is
removed silently). -/
def cleanLogEvs (sec reft : String) (item : ReqCred) : List Event :=
  match item.timestamp with
  | some v => if v ≠ 0 then [.logRemovedTimestamp sec reft item.cred_id] else []
  | none => []

/-- One section of the cleanup pass.  `credentials[req_item["cred_id"]]` is
a direct dict index (KeyError when absent); for a non-revocable credential
the `timestamp` is popped unconditionally. -/
def cleanupSection (creds : AList CredentialRecord) (sec : String) :
    List (String × ReqCred) → Except Err (AList ReqCred) × List Event
  | [] => (.ok [], [])
  | (reft, item) :: rest =>
    match findA creds item.cred_id with
    | none => (.error (.keyError item.cred_id), [])
    | some cred =>
      if truthyStr cred.rev_reg_id then
        let r := cleanupSection creds sec rest
        match r.1 with
        | .error e => (.error e, r.2)
        | .ok rest' => (.ok ((reft, item) :: rest'), r.2)
      else
        let r := cleanupSection creds sec rest
        match r.1 with
        | .error e => (.error e, cleanLogEvs sec reft item ++ r.2)
        | .ok rest' =>
            (.ok ((reft, { item with timestamp := none }) :: rest'),
             cleanLogEvs sec reft item ++ r.2)

/-- Lines 77-86: both sections in order; an absent section key is skipped
(`.get(r, {})`) and left absent. -/
def cleanup (rc : RequestedCredentials) (creds : AList CredentialRecord) :
    Except Err RequestedCredentials × List Event :=
  match rc.requested_attributes with
  | none =>
    match rc.requested_predicates with
    | none => (.ok rc, [])
    | some rp =>
      let r := cleanupSection creds "requested_predicates" rp
      match r.1 with
      | .error e => (.error e, r.2)
      | .ok rp' => (.ok { rc with requested_predicates := some rp' }, r.2)
  | some ra =>
    let r := cleanupSection creds "requested_attributes" ra
    match r.1 with
    | .error e => (.error e, r.2)
    | .ok ra' =>
      match rc.requested_predicates with
      | none => (.ok { rc with requested_attributes := some ra' }, r.2)
      | some rp =>
        let r2 := cleanupSection creds "requested_predicates" rp
        match r2.1 with
        | .error e => (.error e, r.2 ++ r2.2)
        | .ok rp' =>
            (.ok { requested_attributes := some ra'
                   requested_predicates := some rp' }, r.2 ++ r2.2)

/-! ## Phase 4: ledger object resolution (lines 87-120) -/

structure LedgerState where
  schemas : AList String
  cred_defs : AList String
  revocation_registries : AList String
deriving DecidableEq, Repr

/-- Lines 106-107: fetch the schema when not cached. -/
def schemaStep (env : Env) (cred : CredentialRecord) (schemas : AList String) :
    Except String (AList String) × List Event :=
  if hasKey schemas cred.schema_id then (.ok schemas, [])
  else
    match env.get_schema cred.schema_id with
    | .error m => (.error m, [.fetchSchema cred.schema_id])
    | .ok s => (.ok (insertA schemas cred.schema_id s),
                [.fetchSchema cred.schema_id])

/-- Lines 108-112: fetch the credential definition when not cached. -/
def credDefStep (env : Env) (cred : CredentialRecord) (cred_defs : AList String) :
    Except String (AList String) × List Event :=
  if hasKey cred_defs cred.cred_def_id then (.ok cred_defs, [])
  else
    match env.get_credential_definition cred.cred_def_id with
    | .error m => (.error m, [.fetchCredDef cred.cred_def_id])
    | .ok d => (.ok (insertA cred_defs cred.cred_def_id d),
                [.fetchCredDef cred.cred_def_id])

/-- Lines 113-120: for a revocable credential, fetch the revocation
registry definition when not cached. -/
def revRegStep (env : Env) (cred : CredentialRecord) (regs : AList String) :
    Except String (AList String) × List Event :=
  if truthyStr cred.rev_reg_id then
    let rid := cred.rev_reg_id.getD ""
    if hasKey regs rid then (.ok regs, [])
    else
      match env.get_revoc_reg_def rid with
      | .error m => (.error m, [.fetchRevRegDef rid])
      | .ok rd => (.ok (insertA regs rid rd), [.fetchRevRegDef rid])
  else (.ok regs, [])

/-- The body of the `async with ledger:` block for one credential (lines
105-120). -/
def resolveOneCred (env : Env) (cred : CredentialRecord) (st : LedgerState) :
    Except String LedgerState × List Event :=
  let s1 := schemaStep env cred st.schemas
  match s1.1 with
  | .error m => (.error m, s1.2)
  | .ok schemas' =>
    let s2 := credDefStep env cred st.cred_defs
    match s2.1 with
    | .error m => (.error m, s1.2 ++ s2.2)
    | .ok cred_defs' =>
      let s3 := revRegStep env cred st.revocation_registries
      match s3.1 with
      | .error m => (.error m, s1.2 ++ s2.2 ++ s3.2)
      | .ok regs' => (.ok ⟨schemas', cred_defs', regs'⟩, s1.2 ++ s2.2 ++ s3.2)

/-- Lines 92-120: per credential (in `credentials` insertion order), a
ledger handle is acquired (identified by the schema id the executor was
asked to route), the block body runs, and the handle is released on exit
(also on failure, by the context manager). -/
def ledgerObjects (env : Env) :
    List (String × CredentialRecord) → LedgerState →
    Except Err LedgerState × List Event
  | [], st => (.ok st, [])
  | (_, cred) :: rest, st =>
    let body := resolveOneCred env cred st
    let blockEvs :=
      Event.acquireLedger cred.schema_id TxnKind.getSchema ::
        (body.2 ++ [Event.releaseLedger])
    match body.1 with
    | .error m => (.error (.ledger m), blockEvs)
    | .ok st' =>
      let r := ledgerObjects env rest st'
      (r.1, blockEvs ++ r.2)

/-! ## Phase 5: revocation delta aggregation (lines 121-166) -/

def mkDeltaKey (rid : String) (f t : Nat) : String :=
  rid ++ "_" ++ toString f ++ "_" ++ toString t

/-- Lines 163-166: stamp the resolved timestamp onto every referent whose
credential id matches the one the delta entry was recorded for. -/
def stampAll (refts : AList Precis) (credId : String) (ts : Nat) : AList Precis :=
  refts.map (fun p =>
    (p.1, if p.2.cred_id = credId then { p.2 with timestamp := some ts } else p.2))

/-- Lines 125-166: the loop over `requested_referents.values()`.  The
referent list is mutated (stamped) while being iterated, so the loop is
modelled positionally: `fuel` is the (constant) list length and `i` the
current position. -/
def deltaLoop (env : Env) (creds : AList CredentialRecord) (epochNow : Nat) :
    Nat → Nat → AList Precis → AList DeltaEntry →
    Except Err (AList Precis × AList DeltaEntry) × List Event
  | 0, _, refts, cache => (.ok (refts, cache), [])
  | fuel + 1, i, refts, cache =>
    match refts[i]? with
    | none => (.ok (refts, cache), [])
    | some (_, p) =>
      match findA creds p.cred_id with
      | none => (.error (.keyError p.cred_id), [])
      | some cred =>
        if ¬ truthyStr cred.rev_reg_id then
          deltaLoop env creds epochNow fuel (i + 1) refts cache
        else if p.timestamp.isSome then
          deltaLoop env creds epochNow fuel (i + 1) refts cache
        else
          let rid := cred.rev_reg_id.getD ""
          match p.non_revoked with
          | none =>
            let r := deltaLoop env creds epochNow fuel (i + 1) refts cache
            (r.1, [Event.acquireLedger rid TxnKind.getRevocRegDelta,
                   Event.releaseLedger] ++ r.2)
          | some iv =>
            let f := iv.fro.getD 0
            let t := iv.til.getD epochNow
            match findA cache (mkDeltaKey rid f t) with
            | some entry =>
              let refts' := stampAll refts p.cred_id entry.timestamp
              let r := deltaLoop env creds epochNow fuel (i + 1) refts' cache
              (r.1, [Event.acquireLedger rid TxnKind.getRevocRegDelta,
                     Event.releaseLedger] ++ r.2)
            | none =>
              match env.get_revoc_reg_delta rid f t with
              | .error m =>
                  (.error (.ledger m),
                   [Event.acquireLedger rid TxnKind.getRevocRegDelta,
                    Event.fetchDelta rid f t p.cred_id, Event.releaseLedger])
              | .ok (delta, dts) =>
                let cache' := insertA cache (mkDeltaKey rid f t)
                  { rev_reg_id := rid, cred_id := p.cred_id
                    delta := delta, timestamp := dts }
                let refts' := stampAll refts p.cred_id dts
                let r := deltaLoop env creds epochNow fuel (i + 1) refts' cache'
                (r.1, [Event.acquireLedger rid TxnKind.getRevocRegDelta,
                       Event.fetchDelta rid f t p.cred_id,
                       Event.releaseLedger] ++ r.2)

/-! ## Phase 6: revocation state construction (lines 167-193) -/

/-- Lines 169-193: one `create_revocation_state` call per `revoc_reg_deltas`
entry, in cache insertion order.  `revocation_registries[rev_reg_id]` and
`credentials[credential_id]` are direct dict indexes; a holder failure is
logged with its code and message and re-raised. -/
def statesPhase (env : Env) (creds : AList CredentialRecord)
    (regs : AList String) :
    List (String × DeltaEntry) → AList (NList String) →
    Except Err (AList (NList String)) × List Event
  | [], states => (.ok states, [])
  | (_, entry) :: rest, states =>
    let states1 :=
      if hasKey states entry.rev_reg_id then states
      else insertA states entry.rev_reg_id []
    match findA regs entry.rev_reg_id with
    | none => (.error (.keyError entry.rev_reg_id), [])
    | some regDef =>
      match env.get_or_fetch_local_tails_path entry.rev_reg_id with
      | .error m => (.error (.ledger m), [.getTails entry.rev_reg_id])
      | .ok tails =>
        match findA creds entry.cred_id with
        | none => (.error (.keyError entry.cred_id), [.getTails entry.rev_reg_id])
        | some cred =>
          match env.create_revocation_state cred.cred_rev_id regDef entry.delta
              entry.timestamp tails with
          | .error e =>
              (.error (.holder e.error_code e.message),
               [.getTails entry.rev_reg_id,
                .createRevState entry.rev_reg_id entry.timestamp entry.cred_id,
                .logError e.error_code e.message])
          | .ok s =>
            let inner := (findA states1 entry.rev_reg_id).getD []
            let states2 :=
              insertA states1 entry.rev_reg_id
                (insertNL inner entry.timestamp s)
            let r := statesPhase env creds regs rest states2
            (r.1, [Event.getTails entry.rev_reg_id,
                   Event.createRevState entry.rev_reg_id entry.timestamp
                     entry.cred_id] ++ r.2)

/-! ## Phase 7: timestamp merge (lines 194-204) -/

def setTimestamp (l : AList ReqCred) (reft : String) (ts : Nat) : AList ReqCred :=
  l.map (fun p =>
    (p.1, if p.1 = reft then { p.2 with timestamp := some ts } else p.2))

/-- Lines 197-204 for one stamped referent: both sections are indexed
directly (`requested_credentials["requested_attributes"]` first), raising
KeyError when the key is absent; the referent's entry, where present, gets
the resolved timestamp. -/
def mergeOne (rc : RequestedCredentials) (reft : String) (ts : Nat) :
    Except Err RequestedCredentials :=
  match rc.requested_attributes with
  | none => .error (.keyError "requested_attributes")
  | some ra =>
    let ra' := if hasKey ra reft then setTimestamp ra reft ts else ra
    match rc.requested_predicates with
    | none => .error (.keyError "requested_predicates")
    | some rp =>
      let rp' := if hasKey rp reft then setTimestamp rp reft ts else rp
      .ok { requested_attributes := some ra', requested_predicates := some rp' }

/-- Lines 194-204: the merge loop over `requested_referents.items()`. -/
def mergePhase : List (String × Precis) → RequestedCredentials →
    Except Err RequestedCredentials
  | [], rc => .ok rc
  | (reft, p) :: rest, rc =>
    match p.timestamp with
    | none => mergePhase rest rc
    | some ts =>
      match mergeOne rc reft ts with
      | .error e => .error e
      | .ok rc' => mergePhase rest rc'

/-! ## The manager operation (lines 35-213) -/

/-- `StaticProofManager.create_presentation`.  `epochNow` is the value of
`int(time.time())` captured at line 123; the result is the Indy proof (a
JSON string) or the raised error, paired with the full interaction trace. -/
def create_presentation (env : Env) (epochNow : Nat) (pr : ProofRequest)
    (rc : RequestedCredentials) : Except Err String × List Event :=
  let refts := buildRequestedReferents pr rc
  let ph2 := fetchCredentials env refts []
  match ph2.1 with
  | .error e => (.error e, ph2.2)
  | .ok creds =>
    let ph3 := cleanup rc creds
    match ph3.1 with
    | .error e => (.error e, ph2.2 ++ ph3.2)
    | .ok rc1 =>
      let ph4 := ledgerObjects env creds ⟨[], [], []⟩
      match ph4.1 with
      | .error e => (.error e, ph2.2 ++ ph3.2 ++ ph4.2)
      | .ok lst =>
        let ph5 := deltaLoop env creds epochNow refts.length 0 refts []
        match ph5.1 with
        | .error e => (.error e, ph2.2 ++ ph3.2 ++ ph4.2 ++ ph5.2)
        | .ok (refts', deltas) =>
          let ph6 := statesPhase env creds lst.revocation_registries deltas []
          match ph6.1 with
          | .error e => (.error e, ph2.2 ++ ph3.2 ++ ph4.2 ++ ph5.2 ++ ph6.2)
          | .ok states =>
            match mergePhase refts' rc1 with
            | .error e => (.error e, ph2.2 ++ ph3.2 ++ ph4.2 ++ ph5.2 ++ ph6.2)
            | .ok rc2 =>
              match env.create_presentation pr rc2 lst.schemas lst.cred_defs
                  states with
              | .error e =>
                  (.error (.holder e.error_code e.message),
                   ph2.2 ++ ph3.2 ++ ph4.2 ++ ph5.2 ++ ph6.2 ++ [.holderCall rc2])
              | .ok proof =>
                  (.ok proof,
                   ph2.2 ++ ph3.2 ++ ph4.2 ++ ph5.2 ++ ph6.2 ++ [.holderCall rc2])

/-! ## Association list lemmas -/

def keysOf {α : Type} (m : AList α) : List String := m.map Prod.fst

theorem findA_append {α : Type} (a b : AList α) (k : String) :
    findA (a ++ b) k =
      match findA a k with
      | some v => some v
      | none => findA b k := by
  induction a with
  | nil => simp [findA]
  | cons p rest ih =>
    by_cases h : p.1 = k <;> simp [findA, h, ih]

theorem hasKey_append {α : Type} (a b : AList α) (k : String) :
    hasKey (a ++ b) k = (hasKey a k || hasKey b k) := by
  simp only [hasKey, findA_append]
  cases findA a k <;> simp

theorem hasKey_iff_mem {α : Type} (m : AList α) (k : String) :
    hasKey m k = true ↔ k ∈ keysOf m := by
  induction m with
  | nil => simp [hasKey, findA, keysOf]
  | cons p rest ih =>
    by_cases h : p.1 = k
    · subst h; simp [hasKey, findA, keysOf]
    · have hne : ¬ k = p.1 := fun e => h e.symm
      have hmem : k ∈ keysOf (p :: rest) ↔ k ∈ keysOf rest := by
        simp [keysOf, hne]
      rw [hmem, ← ih]
      simp [hasKey, findA, h]

theorem insertA_of_not_hasKey {α : Type} {m : AList α} {k : String} (v : α)
    (h : hasKey m k = false) : insertA m k v = m ++ [(k, v)] := by
  induction m with
  | nil => simp [insertA]
  | cons p rest ih =>
    simp only [hasKey, findA] at h
    by_cases hk : p.1 = k
    · simp [hk] at h
    · simp only [insertA, hk, if_false, List.cons_append, List.cons.injEq, true_and]
      exact ih (by simpa [hasKey, hk] using h)

theorem findA_map {α β : Type} (g : String → α → β) (l : AList α) (k : String) :
    findA (l.map (fun p => (p.1, g p.1 p.2))) k = (findA l k).map (g k) := by
  induction l with
  | nil => simp [findA]
  | cons p rest ih =>
    by_cases h : p.1 = k <;> simp [findA, h, ih]

theorem keysOf_map {α β : Type} (g : String × α → β) (l : AList α) :
    keysOf (l.map (fun p => (p.1, g p))) = keysOf l := by
  simp [keysOf, List.map_map, Function.comp]

/-! ## Characterization of `buildRequestedReferents` -/

/-- The explicit form of `requested_referents` for well-formed input:
attribute entries first, then predicate entries, each translated by
`toPrecis` against its own proof-request section. -/
def precisOf (pr : ProofRequest) (rc : RequestedCredentials) : AList Precis :=
  (rc.requested_attributes.getD []).map
      (toPrecis pr.requested_attributes (nonRevocIntervals pr)) ++
    (rc.requested_predicates.getD []).map
      (toPrecis pr.requested_predicates (nonRevocIntervals pr))

/-- Credential ids referenced anywhere in the requested-credentials
structure, in order of appearance. -/
def sectionCredIds (rc : RequestedCredentials) : List String :=
  ((rc.requested_attributes.getD []) ++ (rc.requested_predicates.getD [])).map
    (fun p => p.2.cred_id)

/-- Well-formedness of the requested-credentials mapping, per spec §3:
referent names are unique within each section (Python dicts) and the two
sections name disjoint referents (the spec's single referent namespace). -/
def wfRC (rc : RequestedCredentials) : Prop :=
  ((rc.requested_attributes.getD []).map Prod.fst).Nodup ∧
    ((rc.requested_predicates.getD []).map Prod.fst).Nodup ∧
    ∀ k ∈ (rc.requested_attributes.getD []).map Prod.fst,
      k ∉ (rc.requested_predicates.getD []).map Prod.fst

theorem buildSection_eq (reqItems : AList ReqItem) (nri : AList Interval)
    (creds : List (String × ReqCred)) :
    ∀ acc, (∀ k ∈ creds.map Prod.fst, hasKey acc k = false) →
    (creds.map Prod.fst).Nodup →
    buildSection reqItems nri creds acc =
      acc ++ creds.map (toPrecis reqItems nri) := by
  induction creds with
  | nil => intro acc _ _; simp [buildSection]
  | cons p rest ih =>
    intro acc hfresh hnodup
    have h1 : hasKey acc p.1 = false := hfresh p.1 (by simp)
    rw [buildSection, insertA_of_not_hasKey _ h1,
      ih (acc ++ [(p.1, (toPrecis reqItems nri p).2)])
        (fun k hk => by
          have hne : ¬ p.1 = k := by
            rintro rfl
            exact (List.nodup_cons.mp (by simpa using hnodup)).1 hk
          have h2 : hasKey acc k = false := hfresh k (by simp [hk])
          rw [hasKey_append, h2]
          simp [hasKey, findA, hne])
        (List.nodup_cons.mp (by simpa using hnodup)).2]
    simp [toPrecis]

theorem buildRequestedReferents_eq (pr : ProofRequest) (rc : RequestedCredentials)
    (hwf : wfRC rc) :
    buildRequestedReferents pr rc = precisOf pr rc := by
  obtain ⟨h1, h2, h3⟩ := hwf
  rw [buildRequestedReferents, buildSection_eq _ _ _ [] (by simp [hasKey, findA]) h1,
    buildSection_eq]
  · simp [precisOf]
  · intro k hk
    have : k ∉ (rc.requested_attributes.getD []).map Prod.fst := fun hmem =>
      h3 k hmem hk
    rw [← Bool.not_eq_true, hasKey_iff_mem]
    simpa [keysOf, toPrecis, keysOf_map, List.map_map, Function.comp] using this
  · exact h2

theorem precisOf_timestamp_none (pr : ProofRequest) (rc : RequestedCredentials) :
    ∀ q ∈ precisOf pr rc, q.2.timestamp = none := by
  intro q hq
  simp only [precisOf, List.mem_append, List.mem_map] at hq
  rcases hq with ⟨p, _, rfl⟩ | ⟨p, _, rfl⟩ <;> simp [toPrecis]

theorem precisOf_credIds (pr : ProofRequest) (rc : RequestedCredentials) :
    (precisOf pr rc).map (fun q => q.2.cred_id) = sectionCredIds rc := by
  simp only [precisOf, sectionCredIds, List.map_append, List.map_map]
  rfl

theorem findA_insertA_self {α : Type} (m : AList α) (k : String) (v : α) :
    findA (insertA m k v) k = some v := by
  induction m with
  | nil => simp [insertA, findA]
  | cons p rest ih =>
    by_cases h : p.1 = k <;> simp [insertA, findA, h, ih]

theorem findA_insertA_ne {α : Type} (m : AList α) {k k' : String} (v : α)
    (h : ¬ k' = k) : findA (insertA m k v) k' = findA m k' := by
  have h' : ¬ k = k' := fun e => h e.symm
  induction m with
  | nil => simp [insertA, findA, h']
  | cons p rest ih =>
    by_cases hp : p.1 = k
    · subst hp
      simp [insertA, findA, h']
    · by_cases hp' : p.1 = k' <;> simp [insertA, findA, hp, hp', ih, h]

theorem hasKey_insertA {α : Type} (m : AList α) (k k' : String) (v : α) :
    hasKey (insertA m k v) k' = true ↔ (k' = k ∨ hasKey m k' = true) := by
  by_cases h : k' = k
  · subst h; simp [hasKey, findA_insertA_self]
  · simp [hasKey, findA_insertA_ne _ _ h, h]

/-! ## Trace counting helpers -/

def countGetCred (L : List Event) (c : String) : Nat :=
  L.countP (fun e => match e with
    | .getCredential c' => c' == c
    | _ => false)

def countDeltaFetch (L : List Event) (rid : String) (f t : Nat) : Nat :=
  L.countP (fun e => match e with
    | .fetchDelta r a b _ => decide (r = rid ∧ a = f ∧ b = t)
    | _ => false)

def countRevState (L : List Event) (rid : String) (ts : Nat) : Nat :=
  L.countP (fun e => match e with
    | .createRevState r s _ => decide (r = rid ∧ s = ts)
    | _ => false)

def countRevStateAll (L : List Event) : Nat :=
  L.countP (fun e => match e with
    | .createRevState _ _ _ => true
    | _ => false)

/-! ## Lemmas about the credential-fetch phase -/

def credIdsOf (l : List (String × Precis)) : List String :=
  l.map (fun q => q.2.cred_id)

theorem fetchCredentials_cons_old (env : Env) (q : String × Precis)
    (rest : List (String × Precis)) (acc : AList CredentialRecord)
    (h : hasKey acc q.2.cred_id = true) :
    fetchCredentials env (q :: rest) acc = fetchCredentials env rest acc := by
  rw [fetchCredentials, if_pos h]

theorem fetchCredentials_cons_err (env : Env) (q : String × Precis)
    (rest : List (String × Precis)) (acc : AList CredentialRecord)
    (err : HolderError) (h : ¬ hasKey acc q.2.cred_id = true)
    (hcr : env.get_credential q.2.cred_id = .error err) :
    fetchCredentials env (q :: rest) acc =
      (.error (.holder err.error_code err.message),
       [.getCredential q.2.cred_id]) := by
  rw [fetchCredentials, if_neg h, hcr]

theorem fetchCredentials_cons_new (env : Env) (q : String × Precis)
    (rest : List (String × Precis)) (acc : AList CredentialRecord)
    (cr : CredentialRecord) (h : ¬ hasKey acc q.2.cred_id = true)
    (hcr : env.get_credential q.2.cred_id = .ok cr) :
    fetchCredentials env (q :: rest) acc =
      ((fetchCredentials env rest (insertA acc q.2.cred_id cr)).1,
       .getCredential q.2.cred_id ::
         (fetchCredentials env rest (insertA acc q.2.cred_id cr)).2) := by
  rw [fetchCredentials, if_neg h, hcr]

theorem fetchCredentials_cons_new_snd (env : Env) (q : String × Precis)
    (rest : List (String × Precis)) (acc : AList CredentialRecord)
    (cr : CredentialRecord) (h : ¬ hasKey acc q.2.cred_id = true)
    (hcr : env.get_credential q.2.cred_id = .ok cr) :
    (fetchCredentials env (q :: rest) acc).2 =
      .getCredential q.2.cred_id ::
        (fetchCredentials env rest (insertA acc q.2.cred_id cr)).2 := by
  rw [fetchCredentials_cons_new env q rest acc cr h hcr]

theorem fetchCredentials_count (env : Env) (c : String) :
    ∀ (l : List (String × Precis)) (acc : AList CredentialRecord),
    (∀ c' ∈ credIdsOf l, ∃ cr, env.get_credential c' = .ok cr) →
    countGetCred (fetchCredentials env l acc).2 c =
      if c ∈ credIdsOf l ∧ hasKey acc c = false then 1 else 0 := by
  intro l
  induction l with
  | nil => intro acc _; simp [fetchCredentials, countGetCred, credIdsOf]
  | cons q rest ih =>
    intro acc hok
    have hok' : ∀ c' ∈ credIdsOf rest, ∃ cr, env.get_credential c' = .ok cr :=
      fun c' hc' => hok c' (by simp [credIdsOf] at hc' ⊢; exact .inr hc')
    by_cases h : hasKey acc q.2.cred_id
    · rw [fetchCredentials_cons_old env q rest acc h, ih acc hok']
      by_cases hc : c = q.2.cred_id
      · subst hc; simp [h]
      · have hiff : (c ∈ credIdsOf rest) ↔ c ∈ credIdsOf (q :: rest) := by
          simp [credIdsOf, hc]
        exact if_congr (and_congr_left' hiff) rfl rfl
    · obtain ⟨cr, hcr⟩ := hok q.2.cred_id (by simp [credIdsOf])
      have hge : hasKey acc q.2.cred_id = false := by simpa using h
      rw [countGetCred, fetchCredentials_cons_new_snd env q rest acc cr h hcr,
        List.countP_cons]
      have ihx := ih (insertA acc q.2.cred_id cr) hok'
      rw [countGetCred] at ihx
      rw [ihx]
      by_cases hc : c = q.2.cred_id
      · subst hc
        have hk : hasKey (insertA acc q.2.cred_id cr) q.2.cred_id = true :=
          (hasKey_insertA _ _ _ _).mpr (.inl rfl)
        have hcond : ¬ (q.2.cred_id ∈ credIdsOf rest ∧
            hasKey (insertA acc q.2.cred_id cr) q.2.cred_id = false) := by
          rintro ⟨_, hb⟩
          rw [hk] at hb
          exact absurd hb (by decide)
        rw [if_neg hcond, if_pos (show q.2.cred_id ∈ credIdsOf (q :: rest) ∧
          hasKey acc q.2.cred_id = false from ⟨by simp [credIdsOf], hge⟩)]
        simp
      · have hsame : hasKey (insertA acc q.2.cred_id cr) c = hasKey acc c := by
          by_cases hac : hasKey acc c
          · rw [hac, (hasKey_insertA _ _ _ _).mpr (.inr hac)]
          · simp only [Bool.not_eq_true] at hac
            rw [hac]
            rw [← Bool.not_eq_true]
            intro hcon
            rcases (hasKey_insertA _ _ _ _).mp hcon with h1 | h1
            · exact hc h1
            · rw [hac] at h1; exact Bool.false_ne_true h1
        have hbeq : (q.2.cred_id == c) = false := by
          simp only [beq_eq_false_iff_ne, ne_eq]
          exact fun e => hc e.symm
        have hiff : (c ∈ credIdsOf rest ∧
              hasKey (insertA acc q.2.cred_id cr) c = false) ↔
            (c ∈ credIdsOf (q :: rest) ∧ hasKey acc c = false) := by
          rw [hsame]
          exact and_congr_left' (by simp [credIdsOf, hc])
        rw [if_congr hiff rfl rfl]
        simp [hbeq]

theorem fetchCredentials_events_shape (env : Env) :
    ∀ (l : List (String × Precis)) (acc : AList CredentialRecord),
    ∀ e ∈ (fetchCredentials env l acc).2, ∃ c, e = .getCredential c := by
  intro l
  induction l with
  | nil => intro acc e he; simp [fetchCredentials] at he
  | cons q rest ih =>
    intro acc e he
    by_cases h : hasKey acc q.2.cred_id
    · rw [fetchCredentials_cons_old env q rest acc h] at he
      exact ih acc e he
    · cases hcr : env.get_credential q.2.cred_id with
      | error err =>
        rw [fetchCredentials_cons_err env q rest acc err h hcr] at he
        simp at he
        exact ⟨_, he⟩
      | ok cr =>
        rw [fetchCredentials_cons_new env q rest acc cr h hcr] at he
        simp only [List.mem_cons] at he
        rcases he with rfl | he
        · exact ⟨_, rfl⟩
        · exact ih _ e he

theorem fetchCredentials_ok (env : Env) :
    ∀ (l : List (String × Precis)) (acc : AList CredentialRecord),
    (∀ c ∈ credIdsOf l, ∃ cr, env.get_credential c = .ok cr) →
    (∀ c cr, findA acc c = some cr → env.get_credential c = .ok cr) →
    ∃ creds evs, fetchCredentials env l acc = (.ok creds, evs) ∧
      (∀ c, hasKey creds c = true ↔ (hasKey acc c = true ∨ c ∈ credIdsOf l)) ∧
      (∀ c cr, findA creds c = some cr → env.get_credential c = .ok cr) := by
  intro l
  induction l with
  | nil =>
    intro acc _ hacc
    refine ⟨acc, [], by simp [fetchCredentials], fun c => by simp [credIdsOf], hacc⟩
  | cons q rest ih =>
    intro acc hok hacc
    by_cases h : hasKey acc q.2.cred_id
    · obtain ⟨creds, evs, heq, hmem, hval⟩ :=
        ih acc (fun c hc => hok c (by simp [credIdsOf] at hc ⊢; exact .inr hc)) hacc
      refine ⟨creds, evs, ?_, ?_, hval⟩
      · rw [fetchCredentials_cons_old env q rest acc h, heq]
      · intro c
        rw [hmem c]
        constructor
        · rintro (hc | hc)
          · exact .inl hc
          · exact .inr (by simp [credIdsOf] at hc ⊢; exact .inr hc)
        · rintro (hc | hc)
          · exact .inl hc
          · simp only [credIdsOf, List.map_cons, List.mem_cons] at hc
            rcases hc with rfl | hc
            · exact .inl h
            · exact .inr hc
    · obtain ⟨cr, hcr⟩ := hok q.2.cred_id (by simp [credIdsOf])
      have hacc' : ∀ c cr', findA (insertA acc q.2.cred_id cr) c = some cr' →
          env.get_credential c = .ok cr' := by
        intro c cr' hfind
        by_cases hc : c = q.2.cred_id
        · subst hc
          rw [findA_insertA_self] at hfind
          cases hfind; exact hcr
        · rw [findA_insertA_ne _ _ hc] at hfind
          exact hacc c cr' hfind
      obtain ⟨creds, evs, heq, hmem, hval⟩ :=
        ih (insertA acc q.2.cred_id cr)
          (fun c hc => hok c (by simp [credIdsOf] at hc ⊢; exact .inr hc)) hacc'
      refine ⟨creds, .getCredential q.2.cred_id :: evs, ?_, ?_, hval⟩
      · rw [fetchCredentials_cons_new env q rest acc cr h hcr, heq]
      · intro c
        rw [hmem c]
        constructor
        · rintro (hc | hc)
          · rcases (hasKey_insertA _ _ _ _).mp hc with rfl | hc'
            · exact .inr (by simp [credIdsOf])
            · exact .inl hc'
          · exact .inr (by simp [credIdsOf] at hc ⊢; exact .inr hc)
        · rintro (hc | hc)
          · exact .inl ((hasKey_insertA _ _ _ _).mpr (.inr hc))
          · simp only [credIdsOf, List.map_cons, List.mem_cons] at hc
            rcases hc with rfl | hc
            · exact .inl ((hasKey_insertA _ _ _ _).mpr (.inl rfl))
            · exact .inr hc

/-! ## Lemmas about the cleanup phase -/

/-- The value an entry takes after the cleanup pass. -/
def cleanVal (creds : AList CredentialRecord) (item : ReqCred) : ReqCred :=
  match findA creds item.cred_id with
  | some cred =>
      if truthyStr cred.rev_reg_id then item else { item with timestamp := none }
  | none => item

/-- The requested-credentials structure after the cleanup pass. -/
def cleanRC (creds : AList CredentialRecord) (rc : RequestedCredentials) :
    RequestedCredentials :=
  { requested_attributes :=
      rc.requested_attributes.map (List.map (fun p => (p.1, cleanVal creds p.2)))
    requested_predicates :=
      rc.requested_predicates.map (List.map (fun p => (p.1, cleanVal creds p.2))) }

theorem cleanLogEvs_events (sec reft : String) (item : ReqCred) :
    ∀ e ∈ cleanLogEvs sec reft item, ∃ a b c, e = .logRemovedTimestamp a b c := by
  intro e he
  rw [cleanLogEvs] at he
  cases h : item.timestamp with
  | none => rw [h] at he; simp at he
  | some v =>
    rw [h] at he
    by_cases hv : v = 0
    · simp [hv] at he
    · simp [hv] at he
      exact ⟨_, _, _, he⟩

theorem cleanupSection_events (creds : AList CredentialRecord) (sec : String) :
    ∀ l, ∀ e ∈ (cleanupSection creds sec l).2,
      ∃ a b c, e = .logRemovedTimestamp a b c := by
  intro l
  induction l with
  | nil => intro e he; simp [cleanupSection] at he
  | cons p rest ih =>
    intro e he
    obtain ⟨reft, item⟩ := p
    rw [cleanupSection] at he
    cases hf : findA creds item.cred_id with
    | none => rw [hf] at he; simp at he
    | some cred =>
      rw [hf] at he
      by_cases hrev : truthyStr cred.rev_reg_id
      · simp only [hrev, if_true] at he
        cases hr : (cleanupSection creds sec rest).1 <;>
          · rw [hr] at he
            exact ih e (by simpa using he)
      · simp only [hrev, Bool.false_eq_true, if_false] at he
        cases hr : (cleanupSection creds sec rest).1 <;>
          · rw [hr] at he
            simp only [List.mem_append] at he
            rcases he with he | he
            · exact cleanLogEvs_events sec reft item e he
            · exact ih e (by simpa using he)

theorem cleanupSection_ok (creds : AList CredentialRecord) (sec : String) :
    ∀ l, (∀ p ∈ l, hasKey creds p.2.cred_id = true) →
    (cleanupSection creds sec l).1 =
      .ok (l.map (fun p => (p.1, cleanVal creds p.2))) := by
  intro l
  induction l with
  | nil => intro _; simp [cleanupSection]
  | cons p rest ih =>
    intro hall
    obtain ⟨reft, item⟩ := p
    have hk : hasKey creds item.cred_id = true := hall (reft, item) (by simp)
    rw [hasKey] at hk
    cases hf : findA creds item.cred_id with
    | none => rw [hf] at hk; simp at hk
    | some cred =>
      have ihr := ih (fun q hq => hall q (by simp [hq]))
      rw [cleanupSection, hf]
      by_cases hrev : truthyStr cred.rev_reg_id
      · simp only [hrev, if_true, ihr]
        simp [cleanVal, hf, hrev]
      · simp only [hrev, Bool.false_eq_true, if_false, ihr]
        simp [cleanVal, hf, hrev]

theorem cleanup_events (rc : RequestedCredentials) (creds : AList CredentialRecord) :
    ∀ e ∈ (cleanup rc creds).2, ∃ a b c, e = .logRemovedTimestamp a b c := by
  obtain ⟨raO, rpO⟩ := rc
  intro e he
  cases raO with
  | none =>
    cases rpO with
    | none => simp [cleanup] at he
    | some rp =>
      simp only [cleanup] at he
      cases hr : (cleanupSection creds "requested_predicates" rp).1 <;>
        · simp only [hr] at he
          exact cleanupSection_events _ _ rp e (by simpa using he)
  | some ra =>
    simp only [cleanup] at he
    cases hr : (cleanupSection creds "requested_attributes" ra).1 with
    | error err =>
      simp only [hr] at he
      exact cleanupSection_events _ _ ra e (by simpa using he)
    | ok ra' =>
      simp only [hr] at he
      cases rpO with
      | none => exact cleanupSection_events _ _ ra e (by simpa using he)
      | some rp =>
        cases hr2 : (cleanupSection creds "requested_predicates" rp).1 <;>
          · simp only [hr2] at he
            simp only [List.mem_append] at he
            rcases he with he | he
            · exact cleanupSection_events _ _ ra e he
            · exact cleanupSection_events _ _ rp e he

theorem cleanup_ok (rc : RequestedCredentials) (creds : AList CredentialRecord)
    (ha : ∀ p ∈ rc.requested_attributes.getD [], hasKey creds p.2.cred_id = true)
    (hp : ∀ p ∈ rc.requested_predicates.getD [], hasKey creds p.2.cred_id = true) :
    (cleanup rc creds).1 = .ok (cleanRC creds rc) := by
  obtain ⟨raO, rpO⟩ := rc
  cases raO with
  | none =>
    cases rpO with
    | none => simp [cleanup, cleanRC]
    | some rp =>
      have hsec := cleanupSection_ok creds "requested_predicates" rp
        (by simpa using hp)
      simp [cleanup, cleanRC, hsec]
  | some ra =>
    have hseca := cleanupSection_ok creds "requested_attributes" ra
      (by simpa using ha)
    cases rpO with
    | none => simp [cleanup, cleanRC, hseca]
    | some rp =>
      have hsecp := cleanupSection_ok creds "requested_predicates" rp
        (by simpa using hp)
      simp [cleanup, cleanRC, hseca, hsecp]

/-! ## Lemmas about the ledger-object phase -/

theorem schemaStep_events (env : Env) (cred : CredentialRecord)
    (schemas : AList String) :
    (schemaStep env cred schemas).2 = [] ∨
      (schemaStep env cred schemas).2 = [.fetchSchema cred.schema_id] := by
  rw [schemaStep]
  by_cases h : hasKey schemas cred.schema_id
  · simp [h]
  · cases hs : env.get_schema cred.schema_id <;> simp [h, hs]

theorem credDefStep_events (env : Env) (cred : CredentialRecord)
    (cred_defs : AList String) :
    (credDefStep env cred cred_defs).2 = [] ∨
      (credDefStep env cred cred_defs).2 = [.fetchCredDef cred.cred_def_id] := by
  rw [credDefStep]
  by_cases h : hasKey cred_defs cred.cred_def_id
  · simp [h]
  · cases hs : env.get_credential_definition cred.cred_def_id <;> simp [h, hs]

theorem revRegStep_events (env : Env) (cred : CredentialRecord)
    (regs : AList String) :
    (revRegStep env cred regs).2 = [] ∨
      ∃ r, (revRegStep env cred regs).2 = [.fetchRevRegDef r] := by
  rw [revRegStep]
  by_cases h : truthyStr cred.rev_reg_id
  · simp only [h, if_true]
    by_cases h2 : hasKey regs (cred.rev_reg_id.getD "")
    · simp [h2]
    · cases hs : env.get_revoc_reg_def (cred.rev_reg_id.getD "") <;>
        simp [h2, hs]
  · simp [h]

theorem resolveOneCred_events_spec (env : Env) (cred : CredentialRecord)
    (st : LedgerState) :
    ∃ l1 l2 l3 : List Event,
      (resolveOneCred env cred st).2 = l1 ++ l2 ++ l3 ∧
      (l1 = [] ∨ l1 = [.fetchSchema cred.schema_id]) ∧
      (l2 = [] ∨ l2 = [.fetchCredDef cred.cred_def_id]) ∧
      (l3 = [] ∨ ∃ r, l3 = [.fetchRevRegDef r]) := by
  cases h1 : (schemaStep env cred st.schemas).1 with
  | error m =>
    refine ⟨(schemaStep env cred st.schemas).2, [], [], ?_,
      schemaStep_events env cred st.schemas, .inl rfl, .inl rfl⟩
    simp [resolveOneCred, h1]
  | ok schemas' =>
    cases h2 : (credDefStep env cred st.cred_defs).1 with
    | error m =>
      refine ⟨(schemaStep env cred st.schemas).2,
        (credDefStep env cred st.cred_defs).2, [], ?_,
        schemaStep_events env cred st.schemas,
        credDefStep_events env cred st.cred_defs, .inl rfl⟩
      simp [resolveOneCred, h1, h2]
    | ok cred_defs' =>
      cases h3 : (revRegStep env cred st.revocation_registries).1 <;>
        · refine ⟨(schemaStep env cred st.schemas).2,
            (credDefStep env cred st.cred_defs).2,
            (revRegStep env cred st.revocation_registries).2, ?_,
            schemaStep_events env cred st.schemas,
            credDefStep_events env cred st.cred_defs,
            revRegStep_events env cred st.revocation_registries⟩
          simp [resolveOneCred, h1, h2, h3]

/-- The kinds of events the ledger-object phase can emit. -/
def isObjEvent : Event → Bool
  | .acquireLedger _ _ => true
  | .releaseLedger => true
  | .fetchSchema _ => true
  | .fetchCredDef _ => true
  | .fetchRevRegDef _ => true
  | _ => false

theorem resolveOneCred_events_obj (env : Env) (cred : CredentialRecord)
    (st : LedgerState) :
    ∀ e ∈ (resolveOneCred env cred st).2, isObjEvent e = true := by
  intro e he
  obtain ⟨l1, l2, l3, heq, hl1, hl2, hl3⟩ := resolveOneCred_events_spec env cred st
  rw [heq] at he
  simp only [List.mem_append] at he
  rcases he with (he | he) | he
  · rcases hl1 with rfl | rfl <;> simp at he
    simp [he, isObjEvent]
  · rcases hl2 with rfl | rfl <;> simp at he
    simp [he, isObjEvent]
  · rcases hl3 with rfl | ⟨r, rfl⟩ <;> simp at he
    simp [he, isObjEvent]

theorem ledgerObjects_events (env : Env) :
    ∀ (l : List (String × CredentialRecord)) (st : LedgerState),
    ∀ e ∈ (ledgerObjects env l st).2, isObjEvent e = true := by
  intro l
  induction l with
  | nil => intro st e he; simp [ledgerObjects] at he
  | cons q rest ih =>
    intro st e he
    obtain ⟨nm, cred⟩ := q
    rw [ledgerObjects] at he
    cases hb : (resolveOneCred env cred st).1 with
    | error m =>
      rw [hb] at he
      simp only [List.mem_cons, List.mem_append, List.mem_singleton,
        List.not_mem_nil, or_false] at he
      rcases he with rfl | he | rfl
      · simp [isObjEvent]
      · exact resolveOneCred_events_obj env cred st e he
      · simp [isObjEvent]
    | ok st' =>
      rw [hb] at he
      simp only [List.cons_append, List.mem_cons, List.mem_append,
        List.mem_singleton, List.not_mem_nil, or_false] at he
      rcases he with rfl | (he | rfl) | he
      · simp [isObjEvent]
      · exact resolveOneCred_events_obj env cred st e he
      · simp [isObjEvent]
      · exact ih st' e he

/-! ## The ledger-handle scope discipline checker -/

/-- Ledger reads performed under a handle. -/
def isLedgerFetch : Event → Bool
  | .fetchSchema _ => true
  | .fetchCredDef _ => true
  | .fetchRevRegDef _ => true
  | .fetchDelta _ _ _ _ => true
  | _ => false

/-- One step of the scope walker.  Outer `none` is a detected violation;
otherwise the state is `none` outside any handle scope and `some k` inside
a scope in which `k` ledger fetches have happened so far.  Violations:
more than `bound` fetches inside one scope, nested acquisition, release
without acquisition, a fetch outside any scope, trailing open scope. -/
def scopeStep (bound : Nat) : Option (Option Nat) → Event → Option (Option Nat)
  | none, _ => none
  | some none, e =>
    match e with
    | .acquireLedger _ _ => some (some 0)
    | .releaseLedger => none
    | _ => if isLedgerFetch e then none else some none
  | some (some k), e =>
    match e with
    | .acquireLedger _ _ => none
    | .releaseLedger => some none
    | _ =>
      if isLedgerFetch e then
        if k + 1 ≤ bound then some (some (k + 1)) else none
      else some (some k)

/-- The whole trace respects ledger-handle scoping with at most `bound`
fetches per handle. -/
def scopesOk (bound : Nat) (L : List Event) : Prop :=
  List.foldl (scopeStep bound) (some none) L = some none

instance (bound : Nat) (L : List Event) : Decidable (scopesOk bound L) := by
  unfold scopesOk; infer_instance

theorem scopesOk_append {bound : Nat} {L1 L2 : List Event}
    (h1 : scopesOk bound L1) (h2 : scopesOk bound L2) :
    scopesOk bound (L1 ++ L2) := by
  rw [scopesOk, List.foldl_append, h1, h2]

theorem scopesOk_of_neutral {bound : Nat} {L : List Event}
    (h : ∀ e ∈ L, scopeStep bound (some none) e = some none) :
    scopesOk bound L := by
  induction L with
  | nil => rfl
  | cons e rest ih =>
    rw [scopesOk, List.foldl_cons, h e (by simp)]
    exact ih (fun e' he' => h e' (by simp [he']))

theorem scope_fetch_run (bound : Nat) :
    ∀ (L : List Event) (k : Nat), (∀ e ∈ L, isLedgerFetch e = true) →
    k + L.length ≤ bound →
    List.foldl (scopeStep bound) (some (some k)) L = some (some (k + L.length)) := by
  intro L
  induction L with
  | nil => intro k _ _; simp
  | cons e rest ih =>
    intro k hall hlen
    have hf : isLedgerFetch e = true := hall e (by simp)
    have hkb : k + 1 ≤ bound := by simp at hlen; omega
    have hstep : scopeStep bound (some (some k)) e = some (some (k + 1)) := by
      cases e <;> simp [isLedgerFetch] at hf <;>
        simp [scopeStep, isLedgerFetch, hkb]
    have hlen2 : k + 1 + rest.length = k + (e :: rest).length := by simp; omega
    rw [List.foldl_cons, hstep,
      ih (k + 1) (fun e' he' => hall e' (by simp [he'])) (by simp at hlen ⊢; omega),
      hlen2]

/-! ## Step lemmas for the delta-aggregation loop -/

theorem mem_insertA {α : Type} (m : AList α) (k : String) (v : α) (q : String × α) :
    q ∈ insertA m k v → q ∈ m ∨ q = (k, v) := by
  induction m with
  | nil => intro h; simp [insertA] at h; exact .inr h
  | cons p rest ih =>
    intro h
    rw [insertA] at h
    by_cases hp : p.1 = k
    · simp only [hp, if_true, List.mem_cons] at h
      rcases h with rfl | h
      · exact .inr rfl
      · exact .inl (by simp [h])
    · simp only [hp, if_false, List.mem_cons] at h
      rcases h with rfl | h
      · exact .inl (by simp)
      · rcases ih h with h' | h'
        · exact .inl (by simp [h'])
        · exact .inr h'

theorem stampAll_findA (refts : AList Precis) (c : String) (ts : Nat) (k : String) :
    findA (stampAll refts c ts) k =
      (findA refts k).map
        (fun p => if p.cred_id = c then { p with timestamp := some ts } else p) := by
  rw [stampAll]
  exact findA_map (fun _ p => if p.cred_id = c then { p with timestamp := some ts } else p)
    refts k

theorem stampAll_keys (refts : AList Precis) (c : String) (ts : Nat) :
    keysOf (stampAll refts c ts) = keysOf refts := by
  rw [stampAll]
  exact keysOf_map _ refts

theorem stampAll_length (refts : AList Precis) (c : String) (ts : Nat) :
    (stampAll refts c ts).length = refts.length := by
  simp [stampAll]

theorem deltaLoop_zero (env : Env) (creds : AList CredentialRecord) (now i : Nat)
    (refts : AList Precis) (cache : AList DeltaEntry) :
    deltaLoop env creds now 0 i refts cache = (.ok (refts, cache), []) := rfl

theorem deltaLoop_out (env : Env) (creds : AList CredentialRecord)
    (now fuel i : Nat) (refts : AList Precis) (cache : AList DeltaEntry)
    (h : refts[i]? = none) :
    deltaLoop env creds now (fuel + 1) i refts cache = (.ok (refts, cache), []) := by
  rw [deltaLoop, h]

theorem deltaLoop_missing (env : Env) (creds : AList CredentialRecord)
    (now fuel i : Nat) (refts : AList Precis) (cache : AList DeltaEntry)
    (r : String) (p : Precis) (h : refts[i]? = some (r, p))
    (hc : findA creds p.cred_id = none) :
    deltaLoop env creds now (fuel + 1) i refts cache =
      (.error (.keyError p.cred_id), []) := by
  rw [deltaLoop]
  simp [h, hc]

theorem deltaLoop_skip_nonrev (env : Env) (creds : AList CredentialRecord)
    (now fuel i : Nat) (refts : AList Precis) (cache : AList DeltaEntry)
    (r : String) (p : Precis) (cred : CredentialRecord)
    (h : refts[i]? = some (r, p)) (hc : findA creds p.cred_id = some cred)
    (hrev : truthyStr cred.rev_reg_id = false) :
    deltaLoop env creds now (fuel + 1) i refts cache =
      deltaLoop env creds now fuel (i + 1) refts cache := by
  rw [deltaLoop]
  simp [h, hc, hrev]

theorem deltaLoop_skip_stamped (env : Env) (creds : AList CredentialRecord)
    (now fuel i : Nat) (refts : AList Precis) (cache : AList DeltaEntry)
    (r : String) (p : Precis) (cred : CredentialRecord)
    (h : refts[i]? = some (r, p)) (hc : findA creds p.cred_id = some cred)
    (hrev : truthyStr cred.rev_reg_id = true) (hts : p.timestamp.isSome = true) :
    deltaLoop env creds now (fuel + 1) i refts cache =
      deltaLoop env creds now fuel (i + 1) refts cache := by
  rw [deltaLoop]
  simp [h, hc, hrev, hts]

theorem deltaLoop_no_interval (env : Env) (creds : AList CredentialRecord)
    (now fuel i : Nat) (refts : AList Precis) (cache : AList DeltaEntry)
    (r : String) (p : Precis) (cred : CredentialRecord)
    (h : refts[i]? = some (r, p)) (hc : findA creds p.cred_id = some cred)
    (hrev : truthyStr cred.rev_reg_id = true) (hts : p.timestamp = none)
    (hni : p.non_revoked = none) :
    deltaLoop env creds now (fuel + 1) i refts cache =
      ((deltaLoop env creds now fuel (i + 1) refts cache).1,
       [Event.acquireLedger (cred.rev_reg_id.getD "") TxnKind.getRevocRegDelta,
        Event.releaseLedger] ++
         (deltaLoop env creds now fuel (i + 1) refts cache).2) := by
  rw [deltaLoop]
  simp [h, hc, hrev, hts, hni]

theorem deltaLoop_cached (env : Env) (creds : AList CredentialRecord)
    (now fuel i : Nat) (refts : AList Precis) (cache : AList DeltaEntry)
    (r : String) (p : Precis) (cred : CredentialRecord) (iv : Interval)
    (entry : DeltaEntry)
    (h : refts[i]? = some (r, p)) (hc : findA creds p.cred_id = some cred)
    (hrev : truthyStr cred.rev_reg_id = true) (hts : p.timestamp = none)
    (hni : p.non_revoked = some iv)
    (hfind : findA cache (mkDeltaKey (cred.rev_reg_id.getD "") (iv.fro.getD 0)
      (iv.til.getD now)) = some entry) :
    deltaLoop env creds now (fuel + 1) i refts cache =
      ((deltaLoop env creds now fuel (i + 1)
          (stampAll refts p.cred_id entry.timestamp) cache).1,
       [Event.acquireLedger (cred.rev_reg_id.getD "") TxnKind.getRevocRegDelta,
        Event.releaseLedger] ++
         (deltaLoop env creds now fuel (i + 1)
           (stampAll refts p.cred_id entry.timestamp) cache).2) := by
  rw [deltaLoop]
  simp [h, hc, hrev, hts, hni, hfind]

theorem deltaLoop_fetch_err (env : Env) (creds : AList CredentialRecord)
    (now fuel i : Nat) (refts : AList Precis) (cache : AList DeltaEntry)
    (r : String) (p : Precis) (cred : CredentialRecord) (iv : Interval) (m : String)
    (h : refts[i]? = some (r, p)) (hc : findA creds p.cred_id = some cred)
    (hrev : truthyStr cred.rev_reg_id = true) (hts : p.timestamp = none)
    (hni : p.non_revoked = some iv)
    (hfind : findA cache (mkDeltaKey (cred.rev_reg_id.getD "") (iv.fro.getD 0)
      (iv.til.getD now)) = none)
    (hd : env.get_revoc_reg_delta (cred.rev_reg_id.getD "") (iv.fro.getD 0)
      (iv.til.getD now) = .error m) :
    deltaLoop env creds now (fuel + 1) i refts cache =
      (.error (.ledger m),
       [Event.acquireLedger (cred.rev_reg_id.getD "") TxnKind.getRevocRegDelta,
        Event.fetchDelta (cred.rev_reg_id.getD "") (iv.fro.getD 0) (iv.til.getD now)
          p.cred_id,
        Event.releaseLedger]) := by
  rw [deltaLoop]
  simp [h, hc, hrev, hts, hni, hfind, hd]

theorem deltaLoop_fetch_ok (env : Env) (creds : AList CredentialRecord)
    (now fuel i : Nat) (refts : AList Precis) (cache : AList DeltaEntry)
    (r : String) (p : Precis) (cred : CredentialRecord) (iv : Interval)
    (delta : String) (dts : Nat)
    (h : refts[i]? = some (r, p)) (hc : findA creds p.cred_id = some cred)
    (hrev : truthyStr cred.rev_reg_id = true) (hts : p.timestamp = none)
    (hni : p.non_revoked = some iv)
    (hfind : findA cache (mkDeltaKey (cred.rev_reg_id.getD "") (iv.fro.getD 0)
      (iv.til.getD now)) = none)
    (hd : env.get_revoc_reg_delta (cred.rev_reg_id.getD "") (iv.fro.getD 0)
      (iv.til.getD now) = .ok (delta, dts)) :
    deltaLoop env creds now (fuel + 1) i refts cache =
      ((deltaLoop env creds now fuel (i + 1) (stampAll refts p.cred_id dts)
          (insertA cache (mkDeltaKey (cred.rev_reg_id.getD "") (iv.fro.getD 0)
            (iv.til.getD now))
            { rev_reg_id := cred.rev_reg_id.getD "", cred_id := p.cred_id
              delta := delta, timestamp := dts })).1,
       [Event.acquireLedger (cred.rev_reg_id.getD "") TxnKind.getRevocRegDelta,
        Event.fetchDelta (cred.rev_reg_id.getD "") (iv.fro.getD 0) (iv.til.getD now)
          p.cred_id,
        Event.releaseLedger] ++
         (deltaLoop env creds now fuel (i + 1) (stampAll refts p.cred_id dts)
           (insertA cache (mkDeltaKey (cred.rev_reg_id.getD "") (iv.fro.getD 0)
             (iv.til.getD now))
             { rev_reg_id := cred.rev_reg_id.getD "", cred_id := p.cred_id
               delta := delta, timestamp := dts })).2) := by
  rw [deltaLoop]
  simp [h, hc, hrev, hts, hni, hfind, hd]

/-! ## Delta-loop invariants -/

theorem countDeltaFetch_nonfetch (e : Event) (L : List Event) (rid : String)
    (f t : Nat) (h : ∀ r a b c, e ≠ .fetchDelta r a b c) :
    countDeltaFetch (e :: L) rid f t = countDeltaFetch L rid f t := by
  rw [countDeltaFetch, List.countP_cons, countDeltaFetch]
  cases e <;> simp
  exact absurd rfl (h _ _ _ _)

theorem countDeltaFetch_fetch (L : List Event) (rid : String) (f t : Nat)
    (r c : String) (a b : Nat) :
    countDeltaFetch (Event.fetchDelta r a b c :: L) rid f t =
      countDeltaFetch L rid f t + (if r = rid ∧ a = f ∧ b = t then 1 else 0) := by
  rw [countDeltaFetch, List.countP_cons, countDeltaFetch]
  by_cases h : r = rid ∧ a = f ∧ b = t <;> simp [h]

theorem deltaLoop_count (env : Env) (creds : AList CredentialRecord) (now : Nat)
    (rid : String) (f t : Nat) :
    ∀ (fuel i : Nat) (refts : AList Precis) (cache : AList DeltaEntry),
    countDeltaFetch (deltaLoop env creds now fuel i refts cache).2 rid f t +
      (if hasKey cache (mkDeltaKey rid f t) = true then 1 else 0) ≤ 1 := by
  intro fuel
  induction fuel with
  | zero =>
    intro i refts cache
    rw [deltaLoop_zero]
    simp only [countDeltaFetch, List.countP_nil, Nat.zero_add]
    split <;> omega
  | succ fuel ih =>
    intro i refts cache
    cases hg : refts[i]? with
    | none =>
      rw [deltaLoop_out env creds now fuel i refts cache hg]
      simp only [countDeltaFetch, List.countP_nil, Nat.zero_add]
      split <;> omega
    | some q =>
      obtain ⟨r, p⟩ := q
      cases hc : findA creds p.cred_id with
      | none =>
        rw [deltaLoop_missing env creds now fuel i refts cache r p hg hc]
        simp only [countDeltaFetch, List.countP_nil, Nat.zero_add]
        split <;> omega
      | some cred =>
        by_cases hrev : truthyStr cred.rev_reg_id = true
        · cases hts : p.timestamp with
          | some v =>
            rw [deltaLoop_skip_stamped env creds now fuel i refts cache r p cred
              hg hc hrev (by rw [hts]; rfl)]
            exact ih (i + 1) refts cache
          | none =>
            cases hni : p.non_revoked with
            | none =>
              rw [deltaLoop_no_interval env creds now fuel i refts cache r p cred
                hg hc hrev hts hni]
              simp only [List.cons_append, List.nil_append]
              rw [countDeltaFetch_nonfetch _ _ _ _ _ (by intro _ _ _ _ h; cases h),
                countDeltaFetch_nonfetch _ _ _ _ _ (by intro _ _ _ _ h; cases h)]
              exact ih (i + 1) refts cache
            | some iv =>
              cases hfind : findA cache (mkDeltaKey (cred.rev_reg_id.getD "")
                  (iv.fro.getD 0) (iv.til.getD now)) with
              | some entry =>
                rw [deltaLoop_cached env creds now fuel i refts cache r p cred iv
                  entry hg hc hrev hts hni hfind]
                simp only [List.cons_append, List.nil_append]
                rw [countDeltaFetch_nonfetch _ _ _ _ _ (by intro _ _ _ _ h; cases h),
                  countDeltaFetch_nonfetch _ _ _ _ _ (by intro _ _ _ _ h; cases h)]
                exact ih (i + 1) _ cache
              | none =>
                cases hd : env.get_revoc_reg_delta (cred.rev_reg_id.getD "")
                    (iv.fro.getD 0) (iv.til.getD now) with
                | error m =>
                  rw [deltaLoop_fetch_err env creds now fuel i refts cache r p cred
                    iv m hg hc hrev hts hni hfind hd]
                  rw [show ([Event.acquireLedger (cred.rev_reg_id.getD "")
                      TxnKind.getRevocRegDelta,
                      Event.fetchDelta (cred.rev_reg_id.getD "") (iv.fro.getD 0)
                        (iv.til.getD now) p.cred_id,
                      Event.releaseLedger] : List Event) =
                    Event.acquireLedger (cred.rev_reg_id.getD "")
                        TxnKind.getRevocRegDelta ::
                      Event.fetchDelta (cred.rev_reg_id.getD "") (iv.fro.getD 0)
                        (iv.til.getD now) p.cred_id ::
                      [Event.releaseLedger] from rfl]
                  rw [countDeltaFetch_nonfetch _ _ _ _ _ (by intro _ _ _ _ h; cases h),
                    countDeltaFetch_fetch,
                    countDeltaFetch_nonfetch _ _ _ _ _ (by intro _ _ _ _ h; cases h)]
                  by_cases hm : cred.rev_reg_id.getD "" = rid ∧ iv.fro.getD 0 = f ∧
                      iv.til.getD now = t
                  · obtain ⟨e1, e2, e3⟩ := hm
                    have hkey : mkDeltaKey rid f t =
                        mkDeltaKey (cred.rev_reg_id.getD "") (iv.fro.getD 0)
                          (iv.til.getD now) := by rw [e1, e2, e3]
                    have : hasKey cache (mkDeltaKey rid f t) = false := by
                      rw [hkey, hasKey, hfind]; rfl
                    simp [this, e1, e2, e3, countDeltaFetch]
                  · simp only [if_neg hm]
                    simp only [countDeltaFetch, List.countP_nil, Nat.zero_add]
                    split <;> omega
                | ok pair =>
                  obtain ⟨delta, dts⟩ := pair
                  rw [deltaLoop_fetch_ok env creds now fuel i refts cache r p cred
                    iv delta dts hg hc hrev hts hni hfind hd]
                  simp only [List.cons_append, List.nil_append]
                  rw [countDeltaFetch_nonfetch _ _ _ _ _ (by intro _ _ _ _ h; cases h),
                    countDeltaFetch_fetch,
                    countDeltaFetch_nonfetch _ _ _ _ _ (by intro _ _ _ _ h; cases h)]
                  have ihr := ih (i + 1) (stampAll refts p.cred_id dts)
                    (insertA cache (mkDeltaKey (cred.rev_reg_id.getD "")
                      (iv.fro.getD 0) (iv.til.getD now))
                      { rev_reg_id := cred.rev_reg_id.getD "", cred_id := p.cred_id
                        delta := delta, timestamp := dts })
                  by_cases hm : cred.rev_reg_id.getD "" = rid ∧ iv.fro.getD 0 = f ∧
                      iv.til.getD now = t
                  · obtain ⟨e1, e2, e3⟩ := hm
                    have hkey : mkDeltaKey rid f t =
                        mkDeltaKey (cred.rev_reg_id.getD "") (iv.fro.getD 0)
                          (iv.til.getD now) := by rw [e1, e2, e3]
                    have hold : hasKey cache (mkDeltaKey rid f t) = false := by
                      rw [hkey, hasKey, hfind]; rfl
                    have hnew : hasKey (insertA cache
                        (mkDeltaKey (cred.rev_reg_id.getD "") (iv.fro.getD 0)
                          (iv.til.getD now))
                        { rev_reg_id := cred.rev_reg_id.getD ""
                          cred_id := p.cred_id
                          delta := delta, timestamp := dts })
                        (mkDeltaKey rid f t) = true := by
                      rw [hkey]
                      exact (hasKey_insertA _ _ _ _).mpr (.inl rfl)
                    rw [hnew] at ihr
                    simp at ihr
                    simp only [if_pos (show cred.rev_reg_id.getD "" = rid ∧
                      iv.fro.getD 0 = f ∧ iv.til.getD now = t from ⟨e1, e2, e3⟩),
                      hold]
                    simp only [Bool.false_eq_true, if_false, Nat.add_zero]
                    omega
                  · simp only [if_neg hm, Nat.add_zero]
                    by_cases hck : hasKey cache (mkDeltaKey rid f t) = true
                    · have hnew : hasKey (insertA cache
                          (mkDeltaKey (cred.rev_reg_id.getD "") (iv.fro.getD 0)
                            (iv.til.getD now))
                          { rev_reg_id := cred.rev_reg_id.getD ""
                            cred_id := p.cred_id
                            delta := delta, timestamp := dts })
                          (mkDeltaKey rid f t) = true :=
                        (hasKey_insertA _ _ _ _).mpr (.inr hck)
                      rw [hnew] at ihr
                      rw [hck]
                      simpa using ihr
                    · simp only [Bool.not_eq_true] at hck
                      rw [hck]
                      simp only [if_neg (by simp : ¬ false = true), Nat.add_zero]
                      have hle := ihr
                      split at hle <;> omega
        · have hrev' : truthyStr cred.rev_reg_id = false := by
            simpa using hrev
          rw [deltaLoop_skip_nonrev env creds now fuel i refts cache r p cred
            hg hc hrev']
          exact ih (i + 1) refts cache

/-- Generic induction principle over successful delta-loop runs: any
property of the referent list and the delta cache preserved by the loop's
two mutations (stamping for a revocable credential, caching a freshly
fetched delta) holds at the end. -/
theorem deltaLoop_ok_ind (env : Env) (creds : AList CredentialRecord) (now : Nat)
    (P : AList Precis → AList DeltaEntry → Prop)
    (hstamp : ∀ refts cache c ts cred, findA creds c = some cred →
      truthyStr cred.rev_reg_id = true → P refts cache → P (stampAll refts c ts) cache)
    (hinsert : ∀ refts cache c delta ts key cred, findA creds c = some cred →
      truthyStr cred.rev_reg_id = true → hasKey cache key = false →
      P refts cache →
      P refts (insertA cache key
        { rev_reg_id := cred.rev_reg_id.getD "", cred_id := c
          delta := delta, timestamp := ts })) :
    ∀ (fuel i : Nat) (refts : AList Precis) (cache : AList DeltaEntry)
      (refts' : AList Precis) (deltas : AList DeltaEntry),
      P refts cache →
      (deltaLoop env creds now fuel i refts cache).1 = .ok (refts', deltas) →
      P refts' deltas := by
  intro fuel
  induction fuel with
  | zero =>
    intro i refts cache refts' deltas hP heq
    rw [deltaLoop_zero] at heq
    simp only [Except.ok.injEq, Prod.mk.injEq] at heq
    obtain ⟨rfl, rfl⟩ := heq
    exact hP
  | succ fuel ih =>
    intro i refts cache refts' deltas hP heq
    cases hg : refts[i]? with
    | none =>
      rw [deltaLoop_out env creds now fuel i refts cache hg] at heq
      simp only [Except.ok.injEq, Prod.mk.injEq] at heq
      obtain ⟨rfl, rfl⟩ := heq
      exact hP
    | some q =>
      obtain ⟨r, p⟩ := q
      cases hc : findA creds p.cred_id with
      | none =>
        rw [deltaLoop_missing env creds now fuel i refts cache r p hg hc] at heq
        simp at heq
      | some cred =>
        by_cases hrev : truthyStr cred.rev_reg_id = true
        · cases hts : p.timestamp with
          | some v =>
            rw [deltaLoop_skip_stamped env creds now fuel i refts cache r p cred
              hg hc hrev (by rw [hts]; rfl)] at heq
            exact ih (i + 1) refts cache refts' deltas hP heq
          | none =>
            cases hni : p.non_revoked with
            | none =>
              rw [deltaLoop_no_interval env creds now fuel i refts cache r p cred
                hg hc hrev hts hni] at heq
              exact ih (i + 1) refts cache refts' deltas hP heq
            | some iv =>
              cases hfind : findA cache (mkDeltaKey (cred.rev_reg_id.getD "")
                  (iv.fro.getD 0) (iv.til.getD now)) with
              | some entry =>
                rw [deltaLoop_cached env creds now fuel i refts cache r p cred iv
                  entry hg hc hrev hts hni hfind] at heq
                exact ih (i + 1) _ cache refts' deltas
                  (hstamp refts cache p.cred_id entry.timestamp cred hc hrev hP) heq
              | none =>
                cases hd : env.get_revoc_reg_delta (cred.rev_reg_id.getD "")
                    (iv.fro.getD 0) (iv.til.getD now) with
                | error m =>
                  rw [deltaLoop_fetch_err env creds now fuel i refts cache r p cred
                    iv m hg hc hrev hts hni hfind hd] at heq
                  simp at heq
                | ok pair =>
                  obtain ⟨delta, dts⟩ := pair
                  rw [deltaLoop_fetch_ok env creds now fuel i refts cache r p cred
                    iv delta dts hg hc hrev hts hni hfind hd] at heq
                  have hP1 := hinsert refts cache p.cred_id delta dts
                    (mkDeltaKey (cred.rev_reg_id.getD "") (iv.fro.getD 0)
                      (iv.til.getD now)) cred hc hrev
                    (by rw [hasKey, hfind]; rfl) hP
                  have hP2 := hstamp refts _ p.cred_id dts cred hc hrev hP1
                  exact ih (i + 1) _ _ refts' deltas hP2 heq
        · have hrev' : truthyStr cred.rev_reg_id = false := by simpa using hrev
          rw [deltaLoop_skip_nonrev env creds now fuel i refts cache r p cred
            hg hc hrev'] at heq
          exact ih (i + 1) refts cache refts' deltas hP heq

/-- All referents sharing a credential id carry the same (possibly absent)
resolved timestamp. -/
def SameTs (refts : AList Precis) : Prop :=
  ∀ q1 ∈ refts, ∀ q2 ∈ refts,
    q1.2.cred_id = q2.2.cred_id → q1.2.timestamp = q2.2.timestamp

/-- Every stamped referent's credential is revocable. -/
def RevStamped (creds : AList CredentialRecord) (refts : AList Precis) : Prop :=
  ∀ q ∈ refts, q.2.timestamp.isSome = true →
    ∃ cred, findA creds q.2.cred_id = some cred ∧ truthyStr cred.rev_reg_id = true

/-- Every delta-cache entry's credential is revocable. -/
def CacheRev (creds : AList CredentialRecord) (cache : AList DeltaEntry) : Prop :=
  ∀ q ∈ cache, ∃ cred, findA creds q.2.cred_id = some cred ∧
    truthyStr cred.rev_reg_id = true

@[simp] theorem Precis_setTs_cred (p : Precis) (ts : Nat) :
    ({ p with timestamp := some ts } : Precis).cred_id = p.cred_id := rfl

@[simp] theorem Precis_setTs_ts (p : Precis) (ts : Nat) :
    ({ p with timestamp := some ts } : Precis).timestamp = some ts := rfl

theorem stampAll_sameTs {refts : AList Precis} {c : String} {ts : Nat}
    (h : SameTs refts) : SameTs (stampAll refts c ts) := by
  intro q1 hq1 q2 hq2 hcc
  rw [stampAll] at hq1 hq2
  obtain ⟨p1, hp1, rfl⟩ := List.mem_map.mp hq1
  obtain ⟨p2, hp2, rfl⟩ := List.mem_map.mp hq2
  have hcc' : p1.2.cred_id = p2.2.cred_id := by
    by_cases h1 : p1.2.cred_id = c <;> by_cases h2 : p2.2.cred_id = c
    · exact h1.trans h2.symm
    · simpa [h1, h2] using hcc
    · simpa [h1, h2] using hcc
    · simpa [h1, h2] using hcc
  have hts' := h p1 hp1 p2 hp2 hcc'
  by_cases h1 : p1.2.cred_id = c
  · by_cases h2 : p2.2.cred_id = c
    · simp [h1, h2]
    · exact absurd (hcc'.symm.trans h1) h2
  · by_cases h2 : p2.2.cred_id = c
    · exact absurd (hcc'.trans h2) h1
    · simp [h1, h2, hts']

theorem stampAll_revStamped {creds : AList CredentialRecord} {refts : AList Precis}
    {c : String} {ts : Nat} {cred : CredentialRecord}
    (hc : findA creds c = some cred) (hrev : truthyStr cred.rev_reg_id = true)
    (h : RevStamped creds refts) : RevStamped creds (stampAll refts c ts) := by
  intro q hq hts
  rw [stampAll] at hq
  obtain ⟨p, hp, rfl⟩ := List.mem_map.mp hq
  by_cases h1 : p.2.cred_id = c
  · have hsnd : ((p.1, if p.2.cred_id = c then { p.2 with timestamp := some ts }
        else p.2) : String × Precis).2.cred_id = p.2.cred_id := by
      simp [h1]
    rw [hsnd, h1]
    exact ⟨cred, hc, hrev⟩
  · have hsnd : ((p.1, if p.2.cred_id = c then { p.2 with timestamp := some ts }
        else p.2) : String × Precis).2 = p.2 := by
      simp [h1]
    rw [hsnd] at hts ⊢
    exact h p hp hts

theorem deltaLoop_sameTs (env : Env) (creds : AList CredentialRecord) (now : Nat)
    (fuel i : Nat) (refts refts' : AList Precis) (cache deltas : AList DeltaEntry)
    (hP : SameTs refts)
    (heq : (deltaLoop env creds now fuel i refts cache).1 = .ok (refts', deltas)) :
    SameTs refts' := by
  refine deltaLoop_ok_ind env creds now (fun r _ => SameTs r) ?_ ?_
    fuel i refts cache refts' deltas hP heq
  · intro refts cache c ts cred _ _ h
    exact stampAll_sameTs h
  · intro _ _ _ _ _ _ _ _ _ _ h
    exact h

theorem deltaLoop_revStamped (env : Env) (creds : AList CredentialRecord)
    (now : Nat) (fuel i : Nat) (refts refts' : AList Precis)
    (cache deltas : AList DeltaEntry)
    (hP : RevStamped creds refts)
    (heq : (deltaLoop env creds now fuel i refts cache).1 = .ok (refts', deltas)) :
    RevStamped creds refts' := by
  refine deltaLoop_ok_ind env creds now (fun r _ => RevStamped creds r) ?_ ?_
    fuel i refts cache refts' deltas hP heq
  · intro refts cache c ts cred hc hrev h
    exact stampAll_revStamped hc hrev h
  · intro _ _ _ _ _ _ _ _ _ _ h
    exact h

theorem deltaLoop_cacheRev (env : Env) (creds : AList CredentialRecord)
    (now : Nat) (fuel i : Nat) (refts refts' : AList Precis)
    (cache deltas : AList DeltaEntry)
    (hP : CacheRev creds cache)
    (heq : (deltaLoop env creds now fuel i refts cache).1 = .ok (refts', deltas)) :
    CacheRev creds deltas := by
  refine deltaLoop_ok_ind env creds now (fun _ ch => CacheRev creds ch) ?_ ?_
    fuel i refts cache refts' deltas hP heq
  · intro _ _ _ _ _ _ _ h
    exact h
  · intro refts cache c delta ts key cred hc hrev _ h
    intro q hq
    rcases mem_insertA cache key _ q hq with hmem | rfl
    · exact h q hmem
    · exact ⟨cred, hc, hrev⟩

theorem deltaLoop_credIds (env : Env) (creds : AList CredentialRecord)
    (now : Nat) (fuel i : Nat) (refts0 refts' : AList Precis)
    (cache deltas : AList DeltaEntry)
    (heq : (deltaLoop env creds now fuel i refts0 cache).1 = .ok (refts', deltas)) :
    (∀ k, (findA refts' k).map Precis.cred_id =
        (findA refts0 k).map Precis.cred_id) ∧
      keysOf refts' = keysOf refts0 := by
  refine deltaLoop_ok_ind env creds now
    (fun r _ => (∀ k, (findA r k).map Precis.cred_id =
        (findA refts0 k).map Precis.cred_id) ∧ keysOf r = keysOf refts0) ?_ ?_
    fuel i refts0 cache refts' deltas ⟨fun _ => rfl, rfl⟩ heq
  · intro refts cache c ts cred _ _ h
    refine ⟨fun k => ?_, by rw [stampAll_keys]; exact h.2⟩
    rw [stampAll_findA, ← h.1 k]
    cases findA refts k with
    | none => rfl
    | some p => by_cases hp : p.cred_id = c <;> simp [hp]
  · intro _ _ _ _ _ _ _ _ _ _ h
    exact h

theorem deltaLoop_events (env : Env) (creds : AList CredentialRecord) (now : Nat) :
    ∀ (fuel i : Nat) (refts : AList Precis) (cache : AList DeltaEntry),
    ∀ e ∈ (deltaLoop env creds now fuel i refts cache).2,
      (∃ idf, e = .acquireLedger idf TxnKind.getRevocRegDelta) ∨
      e = .releaseLedger ∨
      (∃ a b d c, e = .fetchDelta a b d c ∧
        ∃ cred, findA creds c = some cred ∧ truthyStr cred.rev_reg_id = true) := by
  intro fuel
  induction fuel with
  | zero =>
    intro i refts cache e he
    rw [deltaLoop_zero] at he
    simp at he
  | succ fuel ih =>
    intro i refts cache e he
    cases hg : refts[i]? with
    | none =>
      rw [deltaLoop_out env creds now fuel i refts cache hg] at he
      simp at he
    | some q =>
      obtain ⟨r, p⟩ := q
      cases hc : findA creds p.cred_id with
      | none =>
        rw [deltaLoop_missing env creds now fuel i refts cache r p hg hc] at he
        simp at he
      | some cred =>
        by_cases hrev : truthyStr cred.rev_reg_id = true
        · cases hts : p.timestamp with
          | some v =>
            rw [deltaLoop_skip_stamped env creds now fuel i refts cache r p cred
              hg hc hrev (by rw [hts]; rfl)] at he
            exact ih (i + 1) refts cache e he
          | none =>
            cases hni : p.non_revoked with
            | none =>
              rw [deltaLoop_no_interval env creds now fuel i refts cache r p cred
                hg hc hrev hts hni] at he
              simp only [List.cons_append, List.nil_append, List.mem_cons] at he
              rcases he with rfl | rfl | he
              · exact .inl ⟨_, rfl⟩
              · exact .inr (.inl rfl)
              · exact ih (i + 1) refts cache e he
            | some iv =>
              cases hfind : findA cache (mkDeltaKey (cred.rev_reg_id.getD "")
                  (iv.fro.getD 0) (iv.til.getD now)) with
              | some entry =>
                rw [deltaLoop_cached env creds now fuel i refts cache r p cred iv
                  entry hg hc hrev hts hni hfind] at he
                simp only [List.cons_append, List.nil_append, List.mem_cons] at he
                rcases he with rfl | rfl | he
                · exact .inl ⟨_, rfl⟩
                · exact .inr (.inl rfl)
                · exact ih (i + 1) _ cache e he
              | none =>
                cases hd : env.get_revoc_reg_delta (cred.rev_reg_id.getD "")
                    (iv.fro.getD 0) (iv.til.getD now) with
                | error m =>
                  rw [deltaLoop_fetch_err env creds now fuel i refts cache r p cred
                    iv m hg hc hrev hts hni hfind hd] at he
                  simp only [List.mem_cons, List.mem_singleton,
                    List.not_mem_nil, or_false] at he
                  rcases he with rfl | rfl | rfl
                  · exact .inl ⟨_, rfl⟩
                  · exact .inr (.inr ⟨_, _, _, _, rfl, cred, hc, hrev⟩)
                  · exact .inr (.inl rfl)
                | ok pair =>
                  obtain ⟨delta, dts⟩ := pair
                  rw [deltaLoop_fetch_ok env creds now fuel i refts cache r p cred
                    iv delta dts hg hc hrev hts hni hfind hd] at he
                  simp only [List.cons_append, List.nil_append, List.mem_cons] at he
                  rcases he with rfl | rfl | rfl | he
                  · exact .inl ⟨_, rfl⟩
                  · exact .inr (.inr ⟨_, _, _, _, rfl, cred, hc, hrev⟩)
                  · exact .inr (.inl rfl)
                  · exact ih (i + 1) _ _ e he
        · have hrev' : truthyStr cred.rev_reg_id = false := by simpa using hrev
          rw [deltaLoop_skip_nonrev env creds now fuel i refts cache r p cred
            hg hc hrev'] at he
          exact ih (i + 1) refts cache e he

/-! ## Step lemmas and invariants for the revocation-state phase -/

theorem statesPhase_nil (env : Env) (creds : AList CredentialRecord)
    (regs : AList String) (states : AList (NList String)) :
    statesPhase env creds regs [] states = (.ok states, []) := rfl

theorem statesPhase_cons_regMissing (env : Env) (creds : AList CredentialRecord)
    (regs : AList String) (k : String) (entry : DeltaEntry)
    (rest : List (String × DeltaEntry)) (states : AList (NList String))
    (hreg : findA regs entry.rev_reg_id = none) :
    statesPhase env creds regs ((k, entry) :: rest) states =
      (.error (.keyError entry.rev_reg_id), []) := by
  rw [statesPhase]
  simp [hreg]

theorem statesPhase_cons_tailsErr (env : Env) (creds : AList CredentialRecord)
    (regs : AList String) (k : String) (entry : DeltaEntry)
    (rest : List (String × DeltaEntry)) (states : AList (NList String))
    (regDef m : String)
    (hreg : findA regs entry.rev_reg_id = some regDef)
    (htails : env.get_or_fetch_local_tails_path entry.rev_reg_id = .error m) :
    statesPhase env creds regs ((k, entry) :: rest) states =
      (.error (.ledger m), [.getTails entry.rev_reg_id]) := by
  rw [statesPhase]
  simp [hreg, htails]

theorem statesPhase_cons_credMissing (env : Env) (creds : AList CredentialRecord)
    (regs : AList String) (k : String) (entry : DeltaEntry)
    (rest : List (String × DeltaEntry)) (states : AList (NList String))
    (regDef tp : String)
    (hreg : findA regs entry.rev_reg_id = some regDef)
    (htails : env.get_or_fetch_local_tails_path entry.rev_reg_id = .ok tp)
    (hcred : findA creds entry.cred_id = none) :
    statesPhase env creds regs ((k, entry) :: rest) states =
      (.error (.keyError entry.cred_id), [.getTails entry.rev_reg_id]) := by
  rw [statesPhase]
  simp [hreg, htails, hcred]

theorem statesPhase_cons_holderErr (env : Env) (creds : AList CredentialRecord)
    (regs : AList String) (k : String) (entry : DeltaEntry)
    (rest : List (String × DeltaEntry)) (states : AList (NList String))
    (regDef tp : String) (cred : CredentialRecord) (err : HolderError)
    (hreg : findA regs entry.rev_reg_id = some regDef)
    (htails : env.get_or_fetch_local_tails_path entry.rev_reg_id = .ok tp)
    (hcred : findA creds entry.cred_id = some cred)
    (hhold : env.create_revocation_state cred.cred_rev_id regDef entry.delta
      entry.timestamp tp = .error err) :
    statesPhase env creds regs ((k, entry) :: rest) states =
      (.error (.holder err.error_code err.message),
       [.getTails entry.rev_reg_id,
        .createRevState entry.rev_reg_id entry.timestamp entry.cred_id,
        .logError err.error_code err.message]) := by
  rw [statesPhase]
  simp [hreg, htails, hcred, hhold]

theorem statesPhase_cons_ok (env : Env) (creds : AList CredentialRecord)
    (regs : AList String) (k : String) (entry : DeltaEntry)
    (rest : List (String × DeltaEntry)) (states : AList (NList String))
    (regDef tp s : String) (cred : CredentialRecord)
    (hreg : findA regs entry.rev_reg_id = some regDef)
    (htails : env.get_or_fetch_local_tails_path entry.rev_reg_id = .ok tp)
    (hcred : findA creds entry.cred_id = some cred)
    (hhold : env.create_revocation_state cred.cred_rev_id regDef entry.delta
      entry.timestamp tp = .ok s) :
    statesPhase env creds regs ((k, entry) :: rest) states =
      ((statesPhase env creds regs rest
          (insertA (if hasKey states entry.rev_reg_id then states
              else insertA states entry.rev_reg_id []) entry.rev_reg_id
            (insertNL ((findA (if hasKey states entry.rev_reg_id then states
                else insertA states entry.rev_reg_id []) entry.rev_reg_id).getD [])
              entry.timestamp s))).1,
       [Event.getTails entry.rev_reg_id,
        Event.createRevState entry.rev_reg_id entry.timestamp entry.cred_id] ++
         (statesPhase env creds regs rest
           (insertA (if hasKey states entry.rev_reg_id then states
               else insertA states entry.rev_reg_id []) entry.rev_reg_id
             (insertNL ((findA (if hasKey states entry.rev_reg_id then states
                 else insertA states entry.rev_reg_id []) entry.rev_reg_id).getD [])
               entry.timestamp s))).2) := by
  rw [statesPhase]
  simp [hreg, htails, hcred, hhold]

theorem statesPhase_cons_ok_fst (env : Env) (creds : AList CredentialRecord)
    (regs : AList String) (k : String) (entry : DeltaEntry)
    (rest : List (String × DeltaEntry)) (states : AList (NList String))
    (regDef tp s : String) (cred : CredentialRecord)
    (hreg : findA regs entry.rev_reg_id = some regDef)
    (htails : env.get_or_fetch_local_tails_path entry.rev_reg_id = .ok tp)
    (hcred : findA creds entry.cred_id = some cred)
    (hhold : env.create_revocation_state cred.cred_rev_id regDef entry.delta
      entry.timestamp tp = .ok s) :
    (statesPhase env creds regs ((k, entry) :: rest) states).1 =
      (statesPhase env creds regs rest
        (insertA (if hasKey states entry.rev_reg_id then states
            else insertA states entry.rev_reg_id []) entry.rev_reg_id
          (insertNL ((findA (if hasKey states entry.rev_reg_id then states
              else insertA states entry.rev_reg_id []) entry.rev_reg_id).getD [])
            entry.timestamp s))).1 := by
  rw [statesPhase_cons_ok env creds regs k entry rest states regDef tp s cred
    hreg htails hcred hhold]

theorem statesPhase_cons_ok_snd (env : Env) (creds : AList CredentialRecord)
    (regs : AList String) (k : String) (entry : DeltaEntry)
    (rest : List (String × DeltaEntry)) (states : AList (NList String))
    (regDef tp s : String) (cred : CredentialRecord)
    (hreg : findA regs entry.rev_reg_id = some regDef)
    (htails : env.get_or_fetch_local_tails_path entry.rev_reg_id = .ok tp)
    (hcred : findA creds entry.cred_id = some cred)
    (hhold : env.create_revocation_state cred.cred_rev_id regDef entry.delta
      entry.timestamp tp = .ok s) :
    (statesPhase env creds regs ((k, entry) :: rest) states).2 =
      [Event.getTails entry.rev_reg_id,
       Event.createRevState entry.rev_reg_id entry.timestamp entry.cred_id] ++
        (statesPhase env creds regs rest
          (insertA (if hasKey states entry.rev_reg_id then states
              else insertA states entry.rev_reg_id []) entry.rev_reg_id
            (insertNL ((findA (if hasKey states entry.rev_reg_id then states
                else insertA states entry.rev_reg_id []) entry.rev_reg_id).getD [])
              entry.timestamp s))).2 := by
  rw [statesPhase_cons_ok env creds regs k entry rest states regDef tp s cred
    hreg htails hcred hhold]

theorem countRevStateAll_pre (r a c : String) (b : Nat) (L : List Event) :
    countRevStateAll ([Event.getTails r, Event.createRevState a b c] ++ L) =
      countRevStateAll L + 1 := by
  simp [countRevStateAll, List.countP_append, List.countP_cons]

/-- On a successful run, one `create_revocation_state` call happens per
delta-cache entry. -/
theorem statesPhase_count_ok (env : Env) (creds : AList CredentialRecord)
    (regs : AList String) :
    ∀ (deltas : List (String × DeltaEntry)) (states : AList (NList String))
      (s' : AList (NList String)),
    (statesPhase env creds regs deltas states).1 = .ok s' →
    countRevStateAll (statesPhase env creds regs deltas states).2 =
      deltas.length := by
  intro deltas
  induction deltas with
  | nil => intro states s' _; rw [statesPhase_nil]; rfl
  | cons q rest ih =>
    intro states s' heq
    obtain ⟨k, entry⟩ := q
    cases hreg : findA regs entry.rev_reg_id with
    | none =>
      rw [statesPhase_cons_regMissing env creds regs k entry rest states hreg] at heq
      simp at heq
    | some regDef =>
      cases htails : env.get_or_fetch_local_tails_path entry.rev_reg_id with
      | error m =>
        rw [statesPhase_cons_tailsErr env creds regs k entry rest states regDef m
          hreg htails] at heq
        simp at heq
      | ok tp =>
        cases hcred : findA creds entry.cred_id with
        | none =>
          rw [statesPhase_cons_credMissing env creds regs k entry rest states
            regDef tp hreg htails hcred] at heq
          simp at heq
        | some cred =>
          cases hhold : env.create_revocation_state cred.cred_rev_id regDef
              entry.delta entry.timestamp tp with
          | error err =>
            rw [statesPhase_cons_holderErr env creds regs k entry rest states
              regDef tp cred err hreg htails hcred hhold] at heq
            simp at heq
          | ok s =>
            rw [statesPhase_cons_ok_fst env creds regs k entry rest states
              regDef tp s cred hreg htails hcred hhold] at heq
            rw [statesPhase_cons_ok_snd env creds regs k entry rest states
              regDef tp s cred hreg htails hcred hhold,
              countRevStateAll_pre, ih _ s' heq]
            simp

theorem statesPhase_events (env : Env) (creds : AList CredentialRecord)
    (regs : AList String) :
    ∀ (deltas : List (String × DeltaEntry)) (states : AList (NList String)),
    ∀ e ∈ (statesPhase env creds regs deltas states).2,
      (∃ r, e = .getTails r) ∨ (∃ a b, e = .logError a b) ∨
      (∃ q ∈ deltas,
        e = .createRevState q.2.rev_reg_id q.2.timestamp q.2.cred_id) := by
  intro deltas
  induction deltas with
  | nil => intro states e he; rw [statesPhase_nil] at he; simp at he
  | cons q rest ih =>
    intro states e he
    obtain ⟨k, entry⟩ := q
    cases hreg : findA regs entry.rev_reg_id with
    | none =>
      rw [statesPhase_cons_regMissing env creds regs k entry rest states hreg] at he
      simp at he
    | some regDef =>
      cases htails : env.get_or_fetch_local_tails_path entry.rev_reg_id with
      | error m =>
        rw [statesPhase_cons_tailsErr env creds regs k entry rest states regDef m
          hreg htails] at he
        simp only [List.mem_singleton] at he
        exact .inl ⟨_, he⟩
      | ok tp =>
        cases hcred : findA creds entry.cred_id with
        | none =>
          rw [statesPhase_cons_credMissing env creds regs k entry rest states
            regDef tp hreg htails hcred] at he
          simp only [List.mem_singleton] at he
          exact .inl ⟨_, he⟩
        | some cred =>
          cases hhold : env.create_revocation_state cred.cred_rev_id regDef
              entry.delta entry.timestamp tp with
          | error err =>
            rw [statesPhase_cons_holderErr env creds regs k entry rest states
              regDef tp cred err hreg htails hcred hhold] at he
            simp only [List.mem_cons, List.mem_singleton, List.not_mem_nil,
              or_false] at he
            rcases he with rfl | rfl | rfl
            · exact .inl ⟨_, rfl⟩
            · exact .inr (.inr ⟨(k, entry), by simp⟩)
            · exact .inr (.inl ⟨_, _, rfl⟩)
          | ok s =>
            rw [statesPhase_cons_ok_snd env creds regs k entry rest states
              regDef tp s cred hreg htails hcred hhold] at he
            simp only [List.cons_append, List.nil_append, List.mem_cons] at he
            rcases he with rfl | rfl | he
            · exact .inl ⟨_, rfl⟩
            · exact .inr (.inr ⟨(k, entry), by simp⟩)
            · rcases ih _ e he with h | h | ⟨q, hq, h⟩
              · exact .inl h
              · exact .inr (.inl h)
              · exact .inr (.inr ⟨q, by simp [hq], h⟩)

/-! ## Lemmas about the merge phase -/

theorem setTimestamp_findA (l : AList ReqCred) (reft : String) (ts : Nat)
    (k : String) :
    findA (setTimestamp l reft ts) k =
      (findA l k).map
        (fun it => if k = reft then { it with timestamp := some ts } else it) := by
  rw [setTimestamp]
  exact findA_map
    (fun key it => if key = reft then { it with timestamp := some ts } else it) l k

theorem mergeOne_raNone (rc : RequestedCredentials) (reft : String) (ts : Nat)
    (h : rc.requested_attributes = none) :
    mergeOne rc reft ts = .error (.keyError "requested_attributes") := by
  rw [mergeOne, h]

theorem mergeOne_rpNone (rc : RequestedCredentials) (reft : String) (ts : Nat)
    (ra : AList ReqCred) (ha : rc.requested_attributes = some ra)
    (h : rc.requested_predicates = none) :
    mergeOne rc reft ts = .error (.keyError "requested_predicates") := by
  rw [mergeOne, ha, h]

theorem mergeOne_ok (rc : RequestedCredentials) (reft : String) (ts : Nat)
    (ra rp : AList ReqCred) (ha : rc.requested_attributes = some ra)
    (hp : rc.requested_predicates = some rp) :
    mergeOne rc reft ts =
      .ok { requested_attributes :=
              some (if hasKey ra reft then setTimestamp ra reft ts else ra)
            requested_predicates :=
              some (if hasKey rp reft then setTimestamp rp reft ts else rp) } := by
  rw [mergeOne, ha, hp]

theorem mergePhase_nil (rc : RequestedCredentials) : mergePhase [] rc = .ok rc := rfl

theorem mergePhase_cons_unstamped (reft : String) (p : Precis)
    (rest : List (String × Precis)) (rc : RequestedCredentials)
    (hts : p.timestamp = none) :
    mergePhase ((reft, p) :: rest) rc = mergePhase rest rc := by
  rw [mergePhase, hts]

theorem mergePhase_cons_stamped (reft : String) (p : Precis)
    (rest : List (String × Precis)) (rc : RequestedCredentials) (v : Nat)
    (hts : p.timestamp = some v) :
    mergePhase ((reft, p) :: rest) rc =
      match mergeOne rc reft v with
      | .error e => .error e
      | .ok rc1 => mergePhase rest rc1 := by
  rw [mergePhase, hts]

/-- If some referent is stamped but a requested-credentials section key is
absent, the merge raises a KeyError. -/
theorem mergePhase_err (l : List (String × Precis)) (rc : RequestedCredentials)
    (hstamp : ∃ q ∈ l, q.2.timestamp.isSome = true)
    (hmiss : rc.requested_attributes = none ∨ rc.requested_predicates = none) :
    ∃ key, mergePhase l rc = .error (.keyError key) := by
  induction l with
  | nil => simp at hstamp
  | cons q rest ih =>
    obtain ⟨reft, p⟩ := q
    cases hts : p.timestamp with
    | none =>
      rw [mergePhase_cons_unstamped reft p rest rc hts]
      apply ih
      obtain ⟨q', hq', hq'ts⟩ := hstamp
      rcases List.mem_cons.mp hq' with rfl | hmem
      · rw [hts] at hq'ts; simp at hq'ts
      · exact ⟨q', hmem, hq'ts⟩
    | some v =>
      rw [mergePhase_cons_stamped reft p rest rc v hts]
      rcases hmiss with hmiss | hmiss
      · rw [mergeOne_raNone rc reft v hmiss]
        exact ⟨"requested_attributes", rfl⟩
      · cases ha : rc.requested_attributes with
        | none =>
          rw [mergeOne_raNone rc reft v ha]
          exact ⟨"requested_attributes", rfl⟩
        | some ra =>
          rw [mergeOne_rpNone rc reft v ra ha hmiss]
          exact ⟨"requested_predicates", rfl⟩

/-- The entry the merge leaves at referent `k` in one section. -/
def mergeSpec (l : AList Precis) (sec : AList ReqCred) (k : String) :
    Option ReqCred :=
  match findA l k with
  | some p =>
    match p.timestamp with
    | some v => (findA sec k).map (fun it => { it with timestamp := some v })
    | none => findA sec k
  | none => findA sec k

theorem findA_eq_none {α : Type} (m : AList α) (k : String) (h : k ∉ keysOf m) :
    findA m k = none := by
  cases hf : findA m k with
  | none => rfl
  | some v =>
    exact absurd ((hasKey_iff_mem m k).mp (by rw [hasKey, hf]; rfl)) h

theorem findA_none_of_hasKey_false {α : Type} {m : AList α} {k : String}
    (h : hasKey m k = false) : findA m k = none := by
  rw [hasKey] at h
  cases hf : findA m k with
  | none => rfl
  | some v => rw [hf] at h; simp at h

theorem mergeSpec_rest_none (rest : AList Precis) (sec : AList ReqCred)
    (k : String) (h : findA rest k = none) : mergeSpec rest sec k = findA sec k := by
  rw [mergeSpec, h]

theorem mergeSpec_cons_ne (reft : String) (p : Precis) (rest : AList Precis)
    (sec : AList ReqCred) (k : String) (h : ¬ reft = k) :
    mergeSpec ((reft, p) :: rest) sec k = mergeSpec rest sec k := by
  rw [mergeSpec, mergeSpec, findA, if_neg h]

theorem mergeSpec_head_unstamped (reft : String) (p : Precis)
    (rest : AList Precis) (sec : AList ReqCred) (hts : p.timestamp = none) :
    mergeSpec ((reft, p) :: rest) sec reft = findA sec reft := by
  simp [mergeSpec, findA, hts]

theorem mergeSpec_head_stamped (reft : String) (p : Precis) (rest : AList Precis)
    (sec : AList ReqCred) (v : Nat) (hts : p.timestamp = some v) :
    mergeSpec ((reft, p) :: rest) sec reft =
      (findA sec reft).map (fun it => { it with timestamp := some v }) := by
  simp [mergeSpec, findA, hts]

theorem mergeSpec_congr (l : AList Precis) (sec1 sec2 : AList ReqCred)
    (k : String) (h : findA sec1 k = findA sec2 k) :
    mergeSpec l sec1 k = mergeSpec l sec2 k := by
  rw [mergeSpec, mergeSpec, h]

theorem setTimestamp_findA_ne (l : AList ReqCred) (reft : String) (ts : Nat)
    (k : String) (h : ¬ k = reft) :
    findA (setTimestamp l reft ts) k = findA l k := by
  rw [setTimestamp_findA]
  cases findA l k with
  | none => rfl
  | some it => simp [h]

theorem mergePhase_char (l : List (String × Precis)) :
    ∀ (rc rc' : RequestedCredentials), (keysOf l).Nodup →
    mergePhase l rc = .ok rc' →
    ∀ k, findA (rc'.requested_attributes.getD []) k =
        mergeSpec l (rc.requested_attributes.getD []) k ∧
      findA (rc'.requested_predicates.getD []) k =
        mergeSpec l (rc.requested_predicates.getD []) k := by
  induction l with
  | nil =>
    intro rc rc' _ heq k
    rw [mergePhase_nil] at heq
    cases heq
    exact ⟨rfl, rfl⟩
  | cons q rest ih =>
    intro rc rc' hnodup heq k
    obtain ⟨reft, p⟩ := q
    have hnodup' : (keysOf rest).Nodup :=
      (List.nodup_cons.mp (by simpa [keysOf] using hnodup)).2
    have hreftout : reft ∉ keysOf rest :=
      (List.nodup_cons.mp (by simpa [keysOf] using hnodup)).1
    have hrest : findA rest reft = none := findA_eq_none rest reft hreftout
    cases hts : p.timestamp with
    | none =>
      rw [mergePhase_cons_unstamped reft p rest rc hts] at heq
      have hch := ih rc rc' hnodup' heq k
      by_cases hk : k = reft
      · subst hk
        rw [mergeSpec_head_unstamped _ _ _ _ hts,
          mergeSpec_head_unstamped _ _ _ _ hts]
        rw [mergeSpec_rest_none _ _ _ hrest, mergeSpec_rest_none _ _ _ hrest] at hch
        exact hch
      · rw [mergeSpec_cons_ne _ _ _ _ _ (fun e => hk e.symm),
          mergeSpec_cons_ne _ _ _ _ _ (fun e => hk e.symm)]
        exact hch
    | some v =>
      rw [mergePhase_cons_stamped reft p rest rc v hts] at heq
      cases ha : rc.requested_attributes with
      | none =>
        rw [mergeOne_raNone rc reft v ha] at heq
        simp at heq
      | some ra =>
        cases hp : rc.requested_predicates with
        | none =>
          rw [mergeOne_rpNone rc reft v ra ha hp] at heq
          simp at heq
        | some rp =>
          rw [mergeOne_ok rc reft v ra rp ha hp] at heq
          simp only [ha, hp, Option.getD_some]
          have hch := ih _ rc' hnodup' heq k
          simp only [Option.getD_some] at hch
          by_cases hk : k = reft
          · subst hk
            rw [mergeSpec_rest_none _ _ _ hrest,
              mergeSpec_rest_none _ _ _ hrest] at hch
            rw [mergeSpec_head_stamped _ _ _ _ _ hts,
              mergeSpec_head_stamped _ _ _ _ _ hts]
            obtain ⟨hA, hP⟩ := hch
            constructor
            · rw [hA]
              by_cases hka : hasKey ra k
              · rw [if_pos hka, setTimestamp_findA]
                cases findA ra k with
                | none => rfl
                | some it => simp
              · rw [if_neg hka]
                rw [findA_none_of_hasKey_false (Bool.not_eq_true _ ▸ hka)]
                rfl
            · rw [hP]
              by_cases hkp : hasKey rp k
              · rw [if_pos hkp, setTimestamp_findA]
                cases findA rp k with
                | none => rfl
                | some it => simp
              · rw [if_neg hkp]
                rw [findA_none_of_hasKey_false (Bool.not_eq_true _ ▸ hkp)]
                rfl
          · rw [mergeSpec_cons_ne _ _ _ _ _ (fun e => hk e.symm),
              mergeSpec_cons_ne _ _ _ _ _ (fun e => hk e.symm)]
            obtain ⟨hA, hP⟩ := hch
            constructor
            · rw [hA]
              apply mergeSpec_congr
              by_cases hka : hasKey ra reft
              · rw [if_pos hka, setTimestamp_findA_ne _ _ _ _ hk]
              · rw [if_neg hka]
            · rw [hP]
              apply mergeSpec_congr
              by_cases hkp : hasKey rp reft
              · rw [if_pos hkp, setTimestamp_findA_ne _ _ _ _ hk]
              · rw [if_neg hkp]

/-! ## Pointwise view of the cleanup result -/

theorem cleanRC_findA (creds : AList CredentialRecord) (rc : RequestedCredentials)
    (k : String) :
    findA ((cleanRC creds rc).requested_attributes.getD []) k =
      (findA (rc.requested_attributes.getD []) k).map (cleanVal creds) ∧
    findA ((cleanRC creds rc).requested_predicates.getD []) k =
      (findA (rc.requested_predicates.getD []) k).map (cleanVal creds) := by
  constructor
  · cases ha : rc.requested_attributes with
    | none => simp [cleanRC, ha, findA]
    | some ra =>
      simp only [cleanRC, ha, Option.map_some, Option.getD_some]
      exact findA_map (fun _ it => cleanVal creds it) ra k
  · cases hp : rc.requested_predicates with
    | none => simp [cleanRC, hp, findA]
    | some rp =>
      simp only [cleanRC, hp, Option.map_some, Option.getD_some]
      exact findA_map (fun _ it => cleanVal creds it) rp k

theorem cleanVal_cred (creds : AList CredentialRecord) (item : ReqCred) :
    (cleanVal creds item).cred_id = item.cred_id := by
  rw [cleanVal]
  cases findA creds item.cred_id with
  | none => rfl
  | some cred => by_cases h : truthyStr cred.rev_reg_id <;> simp [h]

theorem cleanVal_nonrev {creds : AList CredentialRecord} {item : ReqCred}
    {cred : CredentialRecord} (h : findA creds item.cred_id = some cred)
    (hrev : truthyStr cred.rev_reg_id = false) :
    (cleanVal creds item).timestamp = none := by
  rw [cleanVal]
  simp [h, hrev]

theorem cleanVal_rev {creds : AList CredentialRecord} {item : ReqCred}
    {cred : CredentialRecord} (h : findA creds item.cred_id = some cred)
    (hrev : truthyStr cred.rev_reg_id = true) :
    cleanVal creds item = item := by
  rw [cleanVal]
  simp [h, hrev]

/-! ## Pinned-run reductions of `create_presentation` -/

theorem create_presentation_pinned (env : Env) (now : Nat) (pr : ProofRequest)
    (rc : RequestedCredentials) (creds : AList CredentialRecord)
    (evs2 : List Event) (rc1 : RequestedCredentials) (evs3 : List Event)
    (lst : LedgerState) (evs4 : List Event) (refts' : AList Precis)
    (deltas : AList DeltaEntry) (evs5 : List Event)
    (states : AList (NList String)) (evs6 : List Event)
    (rc2 : RequestedCredentials)
    (h2 : fetchCredentials env (buildRequestedReferents pr rc) [] =
      (.ok creds, evs2))
    (h3 : cleanup rc creds = (.ok rc1, evs3))
    (h4 : ledgerObjects env creds ⟨[], [], []⟩ = (.ok lst, evs4))
    (h5 : deltaLoop env creds now (buildRequestedReferents pr rc).length 0
      (buildRequestedReferents pr rc) [] = (.ok (refts', deltas), evs5))
    (h6 : statesPhase env creds lst.revocation_registries deltas [] =
      (.ok states, evs6))
    (h7 : mergePhase refts' rc1 = .ok rc2) :
    create_presentation env now pr rc =
      (match env.create_presentation pr rc2 lst.schemas lst.cred_defs states with
       | .error e => .error (.holder e.error_code e.message)
       | .ok proof => .ok proof,
       evs2 ++ evs3 ++ evs4 ++ evs5 ++ evs6 ++ [.holderCall rc2]) := by
  rw [create_presentation]
  simp only [h2, h3, h4, h5, h6, h7]
  cases env.create_presentation pr rc2 lst.schemas lst.cred_defs states <;> rfl

theorem create_presentation_statesErr (env : Env) (now : Nat) (pr : ProofRequest)
    (rc : RequestedCredentials) (creds : AList CredentialRecord)
    (evs2 : List Event) (rc1 : RequestedCredentials) (evs3 : List Event)
    (lst : LedgerState) (evs4 : List Event) (refts' : AList Precis)
    (deltas : AList DeltaEntry) (evs5 : List Event) (err : Err)
    (evs6 : List Event)
    (h2 : fetchCredentials env (buildRequestedReferents pr rc) [] =
      (.ok creds, evs2))
    (h3 : cleanup rc creds = (.ok rc1, evs3))
    (h4 : ledgerObjects env creds ⟨[], [], []⟩ = (.ok lst, evs4))
    (h5 : deltaLoop env creds now (buildRequestedReferents pr rc).length 0
      (buildRequestedReferents pr rc) [] = (.ok (refts', deltas), evs5))
    (h6 : statesPhase env creds lst.revocation_registries deltas [] =
      (.error err, evs6)) :
    create_presentation env now pr rc =
      (.error err, evs2 ++ evs3 ++ evs4 ++ evs5 ++ evs6) := by
  rw [create_presentation]
  simp only [h2, h3, h4, h5, h6]

theorem create_presentation_mergeErr (env : Env) (now : Nat) (pr : ProofRequest)
    (rc : RequestedCredentials) (creds : AList CredentialRecord)
    (evs2 : List Event) (rc1 : RequestedCredentials) (evs3 : List Event)
    (lst : LedgerState) (evs4 : List Event) (refts' : AList Precis)
    (deltas : AList DeltaEntry) (evs5 : List Event)
    (states : AList (NList String)) (evs6 : List Event) (err : Err)
    (h2 : fetchCredentials env (buildRequestedReferents pr rc) [] =
      (.ok creds, evs2))
    (h3 : cleanup rc creds = (.ok rc1, evs3))
    (h4 : ledgerObjects env creds ⟨[], [], []⟩ = (.ok lst, evs4))
    (h5 : deltaLoop env creds now (buildRequestedReferents pr rc).length 0
      (buildRequestedReferents pr rc) [] = (.ok (refts', deltas), evs5))
    (h6 : statesPhase env creds lst.revocation_registries deltas [] =
      (.ok states, evs6))
    (h7 : mergePhase refts' rc1 = .error err) :
    create_presentation env now pr rc =
      (.error err, evs2 ++ evs3 ++ evs4 ++ evs5 ++ evs6) := by
  rw [create_presentation]
  simp only [h2, h3, h4, h5, h6, h7]

/-! ## Global trace decompositions -/

def noGetCred (L : List Event) : Prop :=
  ∀ e ∈ L, ∀ c, e ≠ Event.getCredential c

theorem noGetCred_append {L1 L2 : List Event} (h1 : noGetCred L1)
    (h2 : noGetCred L2) : noGetCred (L1 ++ L2) := by
  intro e he c
  rcases List.mem_append.mp he with h | h
  · exact h1 e h c
  · exact h2 e h c

theorem cleanup_noGetCred (rcx : RequestedCredentials)
    (creds : AList CredentialRecord) : noGetCred (cleanup rcx creds).2 := by
  intro e he c
  obtain ⟨a, b, d, rfl⟩ := cleanup_events rcx creds e he
  simp

theorem ledgerObjects_noGetCred (env : Env) (l : List (String × CredentialRecord))
    (st : LedgerState) : noGetCred (ledgerObjects env l st).2 := by
  intro e he c
  have h := ledgerObjects_events env l st e he
  rintro rfl
  simp [isObjEvent] at h

theorem deltaLoop_noGetCred (env : Env) (creds : AList CredentialRecord)
    (now fuel i : Nat) (refts : AList Precis) (cache : AList DeltaEntry) :
    noGetCred (deltaLoop env creds now fuel i refts cache).2 := by
  intro e he c
  rcases deltaLoop_events env creds now fuel i refts cache e he with
    ⟨idf, rfl⟩ | rfl | ⟨a, b, d, c', rfl, -⟩ <;> simp

theorem statesPhase_noGetCred (env : Env) (creds : AList CredentialRecord)
    (regs : AList String) (deltas : List (String × DeltaEntry))
    (states : AList (NList String)) :
    noGetCred (statesPhase env creds regs deltas states).2 := by
  intro e he c
  rcases statesPhase_events env creds regs deltas states e he with
    ⟨r, rfl⟩ | ⟨a, b, rfl⟩ | ⟨q, -, rfl⟩ <;> simp

theorem holderCall_noGetCred (rcx : RequestedCredentials) :
    noGetCred [Event.holderCall rcx] := by
  intro e he c
  simp at he
  simp [he]

/-- The run's trace is the credential-fetch trace followed by events none
of which is a `get_credential` call. -/
theorem trace_decomp (env : Env) (now : Nat) (pr : ProofRequest)
    (rc : RequestedCredentials) :
    ∃ rest, (create_presentation env now pr rc).2 =
      (fetchCredentials env (buildRequestedReferents pr rc) []).2 ++ rest ∧
      noGetCred rest := by
  rw [create_presentation]
  cases h2 : fetchCredentials env (buildRequestedReferents pr rc) [] with
  | mk r2 evs2 =>
  cases r2 with
  | error e =>
    exact ⟨[], by simp [h2], by intro e he; simp at he⟩
  | ok creds =>
  cases h3 : cleanup rc creds with
  | mk r3 evs3 =>
  cases r3 with
  | error e =>
    refine ⟨evs3, by simp [h2, h3], ?_⟩
    have := cleanup_noGetCred rc creds
    rw [h3] at this
    exact this
  | ok rc1 =>
  have hng3 : noGetCred evs3 := by
    have := cleanup_noGetCred rc creds
    rw [h3] at this
    exact this
  cases h4 : ledgerObjects env creds ⟨[], [], []⟩ with
  | mk r4 evs4 =>
  have hng4 : noGetCred evs4 := by
    have := ledgerObjects_noGetCred env creds ⟨[], [], []⟩
    rw [h4] at this
    exact this
  cases r4 with
  | error e =>
    exact ⟨evs3 ++ evs4, by simp [h2, h3, h4], noGetCred_append hng3 hng4⟩
  | ok lst =>
  cases h5 : deltaLoop env creds now (buildRequestedReferents pr rc).length 0
      (buildRequestedReferents pr rc) [] with
  | mk r5 evs5 =>
  have hng5 : noGetCred evs5 := by
    have := deltaLoop_noGetCred env creds now
      (buildRequestedReferents pr rc).length 0 (buildRequestedReferents pr rc) []
    rw [h5] at this
    exact this
  cases r5 with
  | error e =>
    exact ⟨evs3 ++ evs4 ++ evs5, by simp [h2, h3, h4, h5],
      noGetCred_append (noGetCred_append hng3 hng4) hng5⟩
  | ok pair =>
  obtain ⟨refts', deltas⟩ := pair
  cases h6 : statesPhase env creds lst.revocation_registries deltas [] with
  | mk r6 evs6 =>
  have hng6 : noGetCred evs6 := by
    have := statesPhase_noGetCred env creds lst.revocation_registries deltas []
    rw [h6] at this
    exact this
  cases r6 with
  | error e =>
    exact ⟨evs3 ++ evs4 ++ evs5 ++ evs6, by simp [h2, h3, h4, h5, h6],
      noGetCred_append (noGetCred_append (noGetCred_append hng3 hng4) hng5) hng6⟩
  | ok states =>
  cases h7 : mergePhase refts' rc1 with
  | error e =>
    exact ⟨evs3 ++ evs4 ++ evs5 ++ evs6, by simp [h2, h3, h4, h5, h6, h7],
      noGetCred_append (noGetCred_append (noGetCred_append hng3 hng4) hng5) hng6⟩
  | ok rc2 =>
    refine ⟨evs3 ++ evs4 ++ evs5 ++ evs6 ++ [Event.holderCall rc2], ?_, ?_⟩
    · cases h8 : env.create_presentation pr rc2 lst.schemas lst.cred_defs states <;>
        simp [h2, h3, h4, h5, h6, h7, h8]
    · exact noGetCred_append (noGetCred_append (noGetCred_append
        (noGetCred_append hng3 hng4) hng5) hng6) (holderCall_noGetCred rc2)

def noDeltaFetch (L : List Event) : Prop :=
  ∀ e ∈ L, ∀ r a b c, e ≠ Event.fetchDelta r a b c

theorem countDeltaFetch_zero {L : List Event} (rid : String) (f t : Nat)
    (h : noDeltaFetch L) : countDeltaFetch L rid f t = 0 := by
  rw [countDeltaFetch, List.countP_eq_zero]
  intro e he
  have h2 := h e he
  cases e <;> simp
  exact absurd rfl (h2 _ _ _ _)

theorem fetchCredentials_noDelta (env : Env) (l : List (String × Precis))
    (acc : AList CredentialRecord) : noDeltaFetch (fetchCredentials env l acc).2 := by
  intro e he r a b c
  obtain ⟨c', rfl⟩ := fetchCredentials_events_shape env l acc e he
  simp

theorem cleanup_noDelta (rcx : RequestedCredentials)
    (creds : AList CredentialRecord) : noDeltaFetch (cleanup rcx creds).2 := by
  intro e he r a b c
  obtain ⟨x, y, z, rfl⟩ := cleanup_events rcx creds e he
  simp

theorem ledgerObjects_noDelta (env : Env) (l : List (String × CredentialRecord))
    (st : LedgerState) : noDeltaFetch (ledgerObjects env l st).2 := by
  intro e he r a b c
  have h := ledgerObjects_events env l st e he
  rintro rfl
  simp [isObjEvent] at h

theorem statesPhase_noDelta (env : Env) (creds : AList CredentialRecord)
    (regs : AList String) (deltas : List (String × DeltaEntry))
    (states : AList (NList String)) :
    noDeltaFetch (statesPhase env creds regs deltas states).2 := by
  intro e he r a b c
  rcases statesPhase_events env creds regs deltas states e he with
    ⟨x, rfl⟩ | ⟨x, y, rfl⟩ | ⟨q, -, rfl⟩ <;> simp

/-- At most one `get_revoc_reg_delta` ledger call per distinct
`(rev_reg_id, from, to)` triple over the whole build, on every input. -/
theorem countDeltaFetch_le_one (env : Env) (now : Nat) (pr : ProofRequest)
    (rc : RequestedCredentials) (rid : String) (f t : Nat) :
    countDeltaFetch (create_presentation env now pr rc).2 rid f t ≤ 1 := by
  have hz2 := countDeltaFetch_zero rid f t
    (fetchCredentials_noDelta env (buildRequestedReferents pr rc) [])
  rw [create_presentation]
  cases h2 : fetchCredentials env (buildRequestedReferents pr rc) [] with
  | mk r2 evs2 =>
  rw [h2] at hz2
  cases r2 with
  | error e => simpa [hz2] using Nat.zero_le 1
  | ok creds =>
  have hz3 := countDeltaFetch_zero rid f t (cleanup_noDelta rc creds)
  cases h3 : cleanup rc creds with
  | mk r3 evs3 =>
  rw [h3] at hz3
  cases r3 with
  | error e =>
    simp only [h3]
    simp only [countDeltaFetch, List.countP_append] at hz2 hz3 ⊢
    omega
  | ok rc1 =>
  have hz4 := countDeltaFetch_zero rid f t
    (ledgerObjects_noDelta env creds ⟨[], [], []⟩)
  cases h4 : ledgerObjects env creds ⟨[], [], []⟩ with
  | mk r4 evs4 =>
  rw [h4] at hz4
  cases r4 with
  | error e =>
    simp only [h3, h4]
    simp only [countDeltaFetch, List.countP_append] at hz2 hz3 hz4 ⊢
    omega
  | ok lst =>
  have hdelta := deltaLoop_count env creds now rid f t
    (buildRequestedReferents pr rc).length 0 (buildRequestedReferents pr rc) []
  have hnokey : hasKey ([] : AList DeltaEntry) (mkDeltaKey rid f t) = false := rfl
  rw [hnokey] at hdelta
  simp only [Bool.false_eq_true, if_false, Nat.add_zero] at hdelta
  cases h5 : deltaLoop env creds now (buildRequestedReferents pr rc).length 0
      (buildRequestedReferents pr rc) [] with
  | mk r5 evs5 =>
  rw [h5] at hdelta
  cases r5 with
  | error e =>
    simp only [h3, h4, h5]
    simp only [countDeltaFetch, List.countP_append] at hz2 hz3 hz4 hdelta ⊢
    omega
  | ok pair =>
  obtain ⟨refts', deltas⟩ := pair
  have hz6 := countDeltaFetch_zero rid f t
    (statesPhase_noDelta env creds lst.revocation_registries deltas [])
  cases h6 : statesPhase env creds lst.revocation_registries deltas [] with
  | mk r6 evs6 =>
  rw [h6] at hz6
  cases r6 with
  | error e =>
    simp only [h3, h4, h5, h6]
    simp only [countDeltaFetch, List.countP_append] at hz2 hz3 hz4 hdelta hz6 ⊢
    omega
  | ok states =>
  cases h7 : mergePhase refts' rc1 with
  | error e =>
    simp only [h3, h4, h5, h6, h7]
    simp only [countDeltaFetch, List.countP_append] at hz2 hz3 hz4 hdelta hz6 ⊢
    omega
  | ok rc2 =>
    cases h8 : env.create_presentation pr rc2 lst.schemas lst.cred_defs states with
    | error e =>
      simp only [h3, h4, h5, h6, h7, h8]
      simp only [countDeltaFetch, List.countP_append, List.countP_cons,
        List.countP_nil, Bool.false_eq_true, if_false] at hz2 hz3 hz4 hdelta hz6 ⊢
      omega
    | ok proof =>
      simp only [h3, h4, h5, h6, h7, h8]
      simp only [countDeltaFetch, List.countP_append, List.countP_cons,
        List.countP_nil, Bool.false_eq_true, if_false] at hz2 hz3 hz4 hdelta hz6 ⊢
      omega

/-! ## Scope discipline of the whole build -/

theorem scopeStep_passive (bound : Nat) (e : Event)
    (h2 : ∀ i k, e ≠ .acquireLedger i k) (h3 : e ≠ .releaseLedger)
    (h1 : isLedgerFetch e = false) :
    scopeStep bound (some none) e = some none := by
  cases e with
  | getCredential c => rfl
  | acquireLedger i k => exact absurd rfl (h2 i k)
  | releaseLedger => exact absurd rfl h3
  | fetchSchema i => simp [isLedgerFetch] at h1
  | fetchCredDef i => simp [isLedgerFetch] at h1
  | fetchRevRegDef i => simp [isLedgerFetch] at h1
  | fetchDelta a b c d => simp [isLedgerFetch] at h1
  | getTails r => rfl
  | createRevState a b c => rfl
  | logRemovedTimestamp a b c => rfl
  | logError a b => rfl
  | holderCall rcx => rfl

theorem scopesOk_fetchCredentials (b : Nat) (env : Env)
    (l : List (String × Precis)) (acc : AList CredentialRecord) :
    scopesOk b (fetchCredentials env l acc).2 :=
  scopesOk_of_neutral (fun e he => by
    obtain ⟨c, rfl⟩ := fetchCredentials_events_shape env l acc e he
    rfl)

theorem scopesOk_cleanup (b : Nat) (rcx : RequestedCredentials)
    (creds : AList CredentialRecord) : scopesOk b (cleanup rcx creds).2 :=
  scopesOk_of_neutral (fun e he => by
    obtain ⟨x, y, z, rfl⟩ := cleanup_events rcx creds e he
    rfl)

theorem scopesOk_statesPhase (b : Nat) (env : Env)
    (creds : AList CredentialRecord) (regs : AList String)
    (deltas : List (String × DeltaEntry)) (states : AList (NList String)) :
    scopesOk b (statesPhase env creds regs deltas states).2 :=
  scopesOk_of_neutral (fun e he => by
    rcases statesPhase_events env creds regs deltas states e he with
      ⟨r, rfl⟩ | ⟨x, y, rfl⟩ | ⟨q, -, rfl⟩ <;> rfl)

theorem scopesOk_holderCall (b : Nat) (rcx : RequestedCredentials) :
    scopesOk b [Event.holderCall rcx] :=
  scopesOk_of_neutral (fun e he => by
    simp at he
    rw [he]
    rfl)

theorem resolveOneCred_fetches (env : Env) (cred : CredentialRecord)
    (st : LedgerState) :
    (∀ e ∈ (resolveOneCred env cred st).2, isLedgerFetch e = true) ∧
      (resolveOneCred env cred st).2.length ≤ 3 := by
  obtain ⟨l1, l2, l3, heq, h1, h2, h3⟩ := resolveOneCred_events_spec env cred st
  rw [heq]
  constructor
  · intro e he
    simp only [List.mem_append] at he
    rcases he with (he | he) | he
    · rcases h1 with rfl | rfl <;> simp at he
      rw [he]; rfl
    · rcases h2 with rfl | rfl <;> simp at he
      rw [he]; rfl
    · rcases h3 with rfl | ⟨r, rfl⟩ <;> simp at he
      rw [he]; rfl
  · rcases h1 with rfl | rfl <;> rcases h2 with rfl | rfl <;>
      rcases h3 with rfl | ⟨r, rfl⟩ <;> simp

theorem scopesOk_block (body : List Event) (idf : String) (txn : TxnKind)
    (hall : ∀ e ∈ body, isLedgerFetch e = true) (hlen : body.length ≤ 3) :
    scopesOk 3 (Event.acquireLedger idf txn :: (body ++ [Event.releaseLedger])) := by
  rw [scopesOk, List.foldl_cons]
  have h0 : scopeStep 3 (some none) (Event.acquireLedger idf txn) =
    some (some 0) := rfl
  rw [h0, List.foldl_append, scope_fetch_run 3 body 0 hall (by omega)]
  rfl

theorem scopesOk_ledgerObjects (env : Env) :
    ∀ (l : List (String × CredentialRecord)) (st : LedgerState),
    scopesOk 3 (ledgerObjects env l st).2 := by
  intro l
  induction l with
  | nil => intro st; rfl
  | cons q rest ih =>
    intro st
    obtain ⟨nm, cred⟩ := q
    have hblock := scopesOk_block (resolveOneCred env cred st).2 cred.schema_id
      TxnKind.getSchema (resolveOneCred_fetches env cred st).1
      (resolveOneCred_fetches env cred st).2
    rw [ledgerObjects]
    cases hb : (resolveOneCred env cred st).1 with
    | error m =>
      simp only [hb]
      exact hblock
    | ok st' =>
      simp only [hb]
      exact scopesOk_append hblock (ih st')

theorem scopesOk_deltaLoop (env : Env) (creds : AList CredentialRecord)
    (now : Nat) :
    ∀ (fuel i : Nat) (refts : AList Precis) (cache : AList DeltaEntry),
    scopesOk 3 (deltaLoop env creds now fuel i refts cache).2 := by
  intro fuel
  induction fuel with
  | zero => intro i refts cache; rfl
  | succ fuel ih =>
    intro i refts cache
    cases hg : refts[i]? with
    | none => rw [deltaLoop_out env creds now fuel i refts cache hg]; rfl
    | some q =>
      obtain ⟨r, p⟩ := q
      cases hc : findA creds p.cred_id with
      | none => rw [deltaLoop_missing env creds now fuel i refts cache r p hg hc]; rfl
      | some cred =>
        by_cases hrev : truthyStr cred.rev_reg_id = true
        · cases hts : p.timestamp with
          | some v =>
            rw [deltaLoop_skip_stamped env creds now fuel i refts cache r p cred
              hg hc hrev (by rw [hts]; rfl)]
            exact ih (i + 1) refts cache
          | none =>
            cases hni : p.non_revoked with
            | none =>
              rw [deltaLoop_no_interval env creds now fuel i refts cache r p cred
                hg hc hrev hts hni]
              exact scopesOk_append (by rfl) (ih (i + 1) refts cache)
            | some iv =>
              cases hfind : findA cache (mkDeltaKey (cred.rev_reg_id.getD "")
                  (iv.fro.getD 0) (iv.til.getD now)) with
              | some entry =>
                rw [deltaLoop_cached env creds now fuel i refts cache r p cred iv
                  entry hg hc hrev hts hni hfind]
                exact scopesOk_append (by rfl) (ih (i + 1) _ cache)
              | none =>
                cases hd : env.get_revoc_reg_delta (cred.rev_reg_id.getD "")
                    (iv.fro.getD 0) (iv.til.getD now) with
                | error m =>
                  rw [deltaLoop_fetch_err env creds now fuel i refts cache r p
                    cred iv m hg hc hrev hts hni hfind hd]
                  rfl
                | ok pair =>
                  obtain ⟨delta, dts⟩ := pair
                  rw [deltaLoop_fetch_ok env creds now fuel i refts cache r p cred
                    iv delta dts hg hc hrev hts hni hfind hd]
                  exact scopesOk_append (by rfl) (ih (i + 1) _ _)
        · have hrev' : truthyStr cred.rev_reg_id = false := by simpa using hrev
          rw [deltaLoop_skip_nonrev env creds now fuel i refts cache r p cred
            hg hc hrev']
          exact ih (i + 1) refts cache

/-- Ledger-handle scoping over the whole build: handles are acquired and
released in a balanced, non-nested way, never across more than three
fetches, with no fetch outside a handle scope. -/
theorem scopesOk_create_presentation (env : Env) (now : Nat) (pr : ProofRequest)
    (rc : RequestedCredentials) :
    scopesOk 3 (create_presentation env now pr rc).2 := by
  have hs2 := scopesOk_fetchCredentials 3 env (buildRequestedReferents pr rc) []
  rw [create_presentation]
  cases h2 : fetchCredentials env (buildRequestedReferents pr rc) [] with
  | mk r2 evs2 =>
  rw [h2] at hs2
  cases r2 with
  | error e => exact hs2
  | ok creds =>
  have hs3 := scopesOk_cleanup 3 rc creds
  cases h3 : cleanup rc creds with
  | mk r3 evs3 =>
  rw [h3] at hs3
  cases r3 with
  | error e =>
    simp only [h3]
    exact scopesOk_append hs2 hs3
  | ok rc1 =>
  have hs4 := scopesOk_ledgerObjects env creds ⟨[], [], []⟩
  cases h4 : ledgerObjects env creds ⟨[], [], []⟩ with
  | mk r4 evs4 =>
  rw [h4] at hs4
  cases r4 with
  | error e =>
    simp only [h3, h4]
    exact scopesOk_append (scopesOk_append hs2 hs3) hs4
  | ok lst =>
  have hs5 := scopesOk_deltaLoop env creds now
    (buildRequestedReferents pr rc).length 0 (buildRequestedReferents pr rc) []
  cases h5 : deltaLoop env creds now (buildRequestedReferents pr rc).length 0
      (buildRequestedReferents pr rc) [] with
  | mk r5 evs5 =>
  rw [h5] at hs5
  cases r5 with
  | error e =>
    simp only [h3, h4, h5]
    exact scopesOk_append (scopesOk_append (scopesOk_append hs2 hs3) hs4) hs5
  | ok pair =>
  obtain ⟨refts', deltas⟩ := pair
  have hs6 := scopesOk_statesPhase 3 env creds lst.revocation_registries deltas []
  cases h6 : statesPhase env creds lst.revocation_registries deltas [] with
  | mk r6 evs6 =>
  rw [h6] at hs6
  cases r6 with
  | error e =>
    simp only [h3, h4, h5, h6]
    exact scopesOk_append (scopesOk_append (scopesOk_append
      (scopesOk_append hs2 hs3) hs4) hs5) hs6
  | ok states =>
  cases h7 : mergePhase refts' rc1 with
  | error e =>
    simp only [h3, h4, h5, h6, h7]
    exact scopesOk_append (scopesOk_append (scopesOk_append
      (scopesOk_append hs2 hs3) hs4) hs5) hs6
  | ok rc2 =>
    cases h8 : env.create_presentation pr rc2 lst.schemas lst.cred_defs states with
    | error e =>
      simp only [h3, h4, h5, h6, h7, h8]
      exact scopesOk_append (scopesOk_append (scopesOk_append (scopesOk_append
        (scopesOk_append hs2 hs3) hs4) hs5) hs6) (scopesOk_holderCall 3 rc2)
    | ok proof =>
      simp only [h3, h4, h5, h6, h7, h8]
      exact scopesOk_append (scopesOk_append (scopesOk_append (scopesOk_append
        (scopesOk_append hs2 hs3) hs4) hs5) hs6) (scopesOk_holderCall 3 rc2)

/-! ## Assorted helper lemmas for the claim theorems -/

theorem findA_mem {α : Type} {m : AList α} {k : String} {v : α}
    (h : findA m k = some v) : (k, v) ∈ m := by
  induction m with
  | nil => simp [findA] at h
  | cons p rest ih =>
    rw [findA] at h
    by_cases hp : p.1 = k
    · rw [if_pos hp] at h
      cases h
      rw [← hp]
      exact List.mem_cons_self p rest
    · rw [if_neg hp] at h
      exact List.mem_cons_of_mem p (ih h)

theorem buildSection_ts_none (reqItems : AList ReqItem) (nri : AList Interval) :
    ∀ (l : List (String × ReqCred)) (acc : AList Precis),
    (∀ q ∈ acc, q.2.timestamp = none) →
    ∀ q ∈ buildSection reqItems nri l acc, q.2.timestamp = none := by
  intro l
  induction l with
  | nil => intro acc hacc q hq; exact hacc q hq
  | cons p rest ih =>
    intro acc hacc q hq
    rw [buildSection] at hq
    refine ih _ ?_ q hq
    intro q' hq'
    rcases mem_insertA _ _ _ _ hq' with h | rfl
    · exact hacc q' h
    · rfl

theorem buildRequestedReferents_ts_none (pr : ProofRequest)
    (rc : RequestedCredentials) :
    ∀ q ∈ buildRequestedReferents pr rc, q.2.timestamp = none := by
  rw [buildRequestedReferents]
  refine buildSection_ts_none _ _ _ _ ?_
  refine buildSection_ts_none _ _ _ _ ?_
  intro q h
  simp at h

theorem buildRequestedReferents_sameTs (pr : ProofRequest)
    (rc : RequestedCredentials) : SameTs (buildRequestedReferents pr rc) := by
  intro q1 h1 q2 h2 _
  rw [buildRequestedReferents_ts_none pr rc q1 h1,
    buildRequestedReferents_ts_none pr rc q2 h2]

theorem buildRequestedReferents_revStamped (creds : AList CredentialRecord)
    (pr : ProofRequest) (rc : RequestedCredentials) :
    RevStamped creds (buildRequestedReferents pr rc) := by
  intro q hq hts
  rw [buildRequestedReferents_ts_none pr rc q hq] at hts
  simp at hts

/-- Keys of the referent map for well-formed input. -/
theorem precisOf_keys (pr : ProofRequest) (rc : RequestedCredentials) :
    keysOf (precisOf pr rc) =
      (rc.requested_attributes.getD []).map Prod.fst ++
        (rc.requested_predicates.getD []).map Prod.fst := by
  rw [precisOf, keysOf, List.map_append]
  congr 1 <;> simp [List.map_map, Function.comp, toPrecis]

theorem precisOf_keys_nodup (pr : ProofRequest) (rc : RequestedCredentials)
    (hwf : wfRC rc) : (keysOf (precisOf pr rc)).Nodup := by
  obtain ⟨h1, h2, h3⟩ := hwf
  rw [precisOf_keys]
  rw [List.nodup_append]
  exact ⟨h1, h2, fun a ha hb => h3 a ha hb⟩

/-- Looking up an attribute-section referent in the referent map. -/
theorem precisOf_findA_attr (pr : ProofRequest) (rc : RequestedCredentials)
    (reft : String) (item : ReqCred)
    (h : findA (rc.requested_attributes.getD []) reft = some item) :
    findA (precisOf pr rc) reft =
      some (toPrecis pr.requested_attributes (nonRevocIntervals pr) (reft, item)).2 := by
  rw [precisOf, findA_append]
  have := findA_map (fun k it =>
    (toPrecis pr.requested_attributes (nonRevocIntervals pr) (k, it)).2)
    (rc.requested_attributes.getD []) reft
  have heq : (rc.requested_attributes.getD []).map
      (toPrecis pr.requested_attributes (nonRevocIntervals pr)) =
      (rc.requested_attributes.getD []).map (fun p => (p.1,
        (toPrecis pr.requested_attributes (nonRevocIntervals pr) (p.1, p.2)).2)) := by
    apply List.map_congr_left
    intro p _
    rfl
  rw [heq, this, h]
  rfl

/-- Looking up a predicate-section referent in the referent map, for
well-formed input (the referent is then absent from the attribute half). -/
theorem precisOf_findA_pred (pr : ProofRequest) (rc : RequestedCredentials)
    (reft : String) (item : ReqCred) (hwf : wfRC rc)
    (h : findA (rc.requested_predicates.getD []) reft = some item) :
    findA (precisOf pr rc) reft =
      some (toPrecis pr.requested_predicates (nonRevocIntervals pr) (reft, item)).2 := by
  obtain ⟨-, -, h3⟩ := hwf
  have hout : reft ∉ (rc.requested_attributes.getD []).map Prod.fst := by
    intro hin
    exact h3 reft hin (by
      have := findA_mem h
      exact List.mem_map.mpr ⟨(reft, item), this, rfl⟩)
  have heqa : (rc.requested_attributes.getD []).map
      (toPrecis pr.requested_attributes (nonRevocIntervals pr)) =
      (rc.requested_attributes.getD []).map (fun p => (p.1,
        (toPrecis pr.requested_attributes (nonRevocIntervals pr) p).2)) := by
    apply List.map_congr_left
    intro p _
    rfl
  have hnone : findA ((rc.requested_attributes.getD []).map
      (toPrecis pr.requested_attributes (nonRevocIntervals pr))) reft = none := by
    rw [heqa]
    apply findA_eq_none
    rw [keysOf_map]
    exact hout
  rw [precisOf, findA_append, hnone]
  have := findA_map (fun k it =>
    (toPrecis pr.requested_predicates (nonRevocIntervals pr) (k, it)).2)
    (rc.requested_predicates.getD []) reft
  have heq : (rc.requested_predicates.getD []).map
      (toPrecis pr.requested_predicates (nonRevocIntervals pr)) =
      (rc.requested_predicates.getD []).map (fun p => (p.1,
        (toPrecis pr.requested_predicates (nonRevocIntervals pr) (p.1, p.2)).2)) := by
    apply List.map_congr_left
    intro p _
    rfl
  rw [heq, this, h]
  rfl

/-- Absent sections stay absent through the cleanup pass. -/
theorem cleanup_none (rc : RequestedCredentials) (creds : AList CredentialRecord)
    (rc1 : RequestedCredentials) (evs : List Event)
    (h : cleanup rc creds = (.ok rc1, evs)) :
    (rc.requested_attributes = none → rc1.requested_attributes = none) ∧
    (rc.requested_predicates = none → rc1.requested_predicates = none) := by
  obtain ⟨raO, rpO⟩ := rc
  cases raO with
  | none =>
    cases rpO with
    | none =>
      simp only [cleanup, Prod.mk.injEq, Except.ok.injEq] at h
      obtain ⟨h1, -⟩ := h
      subst h1
      exact ⟨fun _ => rfl, fun _ => rfl⟩
    | some rp =>
      simp only [cleanup] at h
      cases hr : (cleanupSection creds "requested_predicates" rp).1 with
      | error e =>
        simp only [hr] at h
        exact absurd (congrArg Prod.fst h) (by simp)
      | ok rp' =>
        simp only [hr, Prod.mk.injEq, Except.ok.injEq] at h
        obtain ⟨h1, -⟩ := h
        subst h1
        exact ⟨fun _ => rfl, fun hc => by simp at hc⟩
  | some ra =>
    simp only [cleanup] at h
    cases hr : (cleanupSection creds "requested_attributes" ra).1 with
    | error e =>
      simp only [hr] at h
      exact absurd (congrArg Prod.fst h) (by simp)
    | ok ra' =>
      cases rpO with
      | none =>
        simp only [hr, Prod.mk.injEq, Except.ok.injEq] at h
        obtain ⟨h1, -⟩ := h
        subst h1
        exact ⟨fun hc => by simp at hc, fun _ => rfl⟩
      | some rp =>
        cases hr2 : (cleanupSection creds "requested_predicates" rp).1 with
        | error e =>
          simp only [hr, hr2] at h
          exact absurd (congrArg Prod.fst h) (by simp)
        | ok rp' =>
          simp only [hr, hr2, Prod.mk.injEq, Except.ok.injEq] at h
          obtain ⟨h1, -⟩ := h
          subst h1
          exact ⟨fun hc => by simp at hc, fun hc => by simp at hc⟩

def noRevState (L : List Event) : Prop :=
  ∀ e ∈ L, ∀ r ts c, e ≠ Event.createRevState r ts c

theorem countRevStateAll_zero {L : List Event} (h : noRevState L) :
    countRevStateAll L = 0 := by
  rw [countRevStateAll, List.countP_eq_zero]
  intro e he
  have h2 := h e he
  cases e <;> simp
  exact absurd rfl (h2 _ _ _)

theorem fetchCredentials_noRevState (env : Env) (l : List (String × Precis))
    (acc : AList CredentialRecord) : noRevState (fetchCredentials env l acc).2 := by
  intro e he r ts c
  obtain ⟨c', rfl⟩ := fetchCredentials_events_shape env l acc e he
  simp

theorem cleanup_noRevState (rcx : RequestedCredentials)
    (creds : AList CredentialRecord) : noRevState (cleanup rcx creds).2 := by
  intro e he r ts c
  obtain ⟨x, y, z, rfl⟩ := cleanup_events rcx creds e he
  simp

theorem ledgerObjects_noRevState (env : Env)
    (l : List (String × CredentialRecord)) (st : LedgerState) :
    noRevState (ledgerObjects env l st).2 := by
  intro e he r ts c
  have h := ledgerObjects_events env l st e he
  rintro rfl
  simp [isObjEvent] at h

theorem deltaLoop_noRevState (env : Env) (creds : AList CredentialRecord)
    (now fuel i : Nat) (refts : AList Precis) (cache : AList DeltaEntry) :
    noRevState (deltaLoop env creds now fuel i refts cache).2 := by
  intro e he r ts c
  rcases deltaLoop_events env creds now fuel i refts cache e he with
    ⟨idf, rfl⟩ | rfl | ⟨a, b, d, c', rfl, -⟩ <;> simp

instance (rc : RequestedCredentials) : Decidable (wfRC rc) := by
  unfold wfRC
  infer_instance

theorem countGetCred_append (a b : List Event) (c : String) :
    countGetCred (a ++ b) c = countGetCred a c + countGetCred b c := by
  simp [countGetCred, List.countP_append]

theorem countGetCred_zero {L : List Event} (c : String) (h : noGetCred L) :
    countGetCred L c = 0 := by
  rw [countGetCred, List.countP_eq_zero]
  intro e he
  have h2 := h e he
  cases e <;> simp
  exact absurd rfl (h2 _)

theorem countRevStateAll_append (a b : List Event) :
    countRevStateAll (a ++ b) = countRevStateAll a + countRevStateAll b := by
  simp [countRevStateAll, List.countP_append]

def noHolderCall (L : List Event) : Prop :=
  ∀ e ∈ L, ∀ rcx, e ≠ Event.holderCall rcx

theorem fetchCredentials_noHolderCall (env : Env) (l : List (String × Precis))
    (acc : AList CredentialRecord) :
    noHolderCall (fetchCredentials env l acc).2 := by
  intro e he rcx
  obtain ⟨c', rfl⟩ := fetchCredentials_events_shape env l acc e he
  simp

theorem cleanup_noHolderCall (rcx0 : RequestedCredentials)
    (creds : AList CredentialRecord) : noHolderCall (cleanup rcx0 creds).2 := by
  intro e he rcx
  obtain ⟨x, y, z, rfl⟩ := cleanup_events rcx0 creds e he
  simp

theorem ledgerObjects_noHolderCall (env : Env)
    (l : List (String × CredentialRecord)) (st : LedgerState) :
    noHolderCall (ledgerObjects env l st).2 := by
  intro e he rcx
  have h := ledgerObjects_events env l st e he
  rintro rfl
  simp [isObjEvent] at h

theorem deltaLoop_noHolderCall (env : Env) (creds : AList CredentialRecord)
    (now fuel i : Nat) (refts : AList Precis) (cache : AList DeltaEntry) :
    noHolderCall (deltaLoop env creds now fuel i refts cache).2 := by
  intro e he rcx
  rcases deltaLoop_events env creds now fuel i refts cache e he with
    ⟨idf, rfl⟩ | rfl | ⟨a, b, d, c', rfl, -⟩ <;> simp

theorem statesPhase_noHolderCall (env : Env) (creds : AList CredentialRecord)
    (regs : AList String) (deltas : List (String × DeltaEntry))
    (states : AList (NList String)) :
    noHolderCall (statesPhase env creds regs deltas states).2 := by
  intro e he rcx
  rcases statesPhase_events env creds regs deltas states e he with
    ⟨r, rfl⟩ | ⟨a, b, rfl⟩ | ⟨q, -, rfl⟩ <;> simp

/-- The delta loop never fetches a delta on behalf of a non-revocable
credential. -/
theorem deltaLoop_noDelta_for (env : Env) (creds : AList CredentialRecord)
    (now fuel i : Nat) (refts : AList Precis) (cache : AList DeltaEntry)
    (cid : String) (cred : CredentialRecord)
    (hcred : findA creds cid = some cred)
    (hnonrev : truthyStr cred.rev_reg_id = false) :
    ∀ e ∈ (deltaLoop env creds now fuel i refts cache).2, ∀ r a b,
      e ≠ Event.fetchDelta r a b cid := by
  intro e he r a b hee
  subst hee
  rcases deltaLoop_events env creds now fuel i refts cache _ he with
    ⟨idf, heq⟩ | heq | ⟨a', b', d', c', heq, cred', hc', hr'⟩
  · simp at heq
  · simp at heq
  · cases heq
    rw [hcred] at hc'
    cases hc'
    rw [hr'] at hnonrev
    simp at hnonrev

/-- The revocation-states loop never builds a state for a non-revocable
credential, provided every delta-cache entry is backed by a revocable
credential. -/
theorem statesPhase_noRevState_for (env : Env) (creds : AList CredentialRecord)
    (regs : AList String) (deltas : List (String × DeltaEntry))
    (states : AList (NList String)) (cid : String) (cred : CredentialRecord)
    (hCR : CacheRev creds deltas)
    (hcred : findA creds cid = some cred)
    (hnonrev : truthyStr cred.rev_reg_id = false) :
    ∀ e ∈ (statesPhase env creds regs deltas states).2, ∀ r ts,
      e ≠ Event.createRevState r ts cid := by
  intro e he r ts hee
  subst hee
  rcases statesPhase_events env creds regs deltas states _ he with
    ⟨x, heq⟩ | ⟨x, y, heq⟩ | ⟨q, hq, heq⟩
  · simp at heq
  · simp at heq
  · obtain ⟨cred', hc', hr'⟩ := hCR q hq
    injection heq with h1 h2 h3
    rw [← h3, hcred] at hc'
    cases hc'
    rw [hr'] at hnonrev
    simp at hnonrev

/-- The event trace of a fully successful (pinned) run, phase by phase. -/
theorem create_presentation_pinned_trace (env : Env) (now : Nat)
    (pr : ProofRequest) (rc : RequestedCredentials)
    (creds : AList CredentialRecord) (evs2 : List Event)
    (rc1 : RequestedCredentials) (evs3 : List Event) (lst : LedgerState)
    (evs4 : List Event) (refts' : AList Precis) (deltas : AList DeltaEntry)
    (evs5 : List Event) (states : AList (NList String)) (evs6 : List Event)
    (rc2 : RequestedCredentials)
    (h2 : fetchCredentials env (buildRequestedReferents pr rc) [] =
      (.ok creds, evs2))
    (h3 : cleanup rc creds = (.ok rc1, evs3))
    (h4 : ledgerObjects env creds ⟨[], [], []⟩ = (.ok lst, evs4))
    (h5 : deltaLoop env creds now (buildRequestedReferents pr rc).length 0
      (buildRequestedReferents pr rc) [] = (.ok (refts', deltas), evs5))
    (h6 : statesPhase env creds lst.revocation_registries deltas [] =
      (.ok states, evs6))
    (h7 : mergePhase refts' rc1 = .ok rc2) :
    (create_presentation env now pr rc).2 =
      evs2 ++ evs3 ++ evs4 ++ evs5 ++ evs6 ++ [.holderCall rc2] := by
  rw [create_presentation_pinned env now pr rc creds evs2 rc1 evs3 lst evs4
    refts' deltas evs5 states evs6 rc2 h2 h3 h4 h5 h6 h7]

/-! ## Concrete fixtures for the witnesses and counterexamples -/

def attrEntry (rcx : RequestedCredentials) (k : String) : Option ReqCred :=
  findA (rcx.requested_attributes.getD []) k

def predEntry (rcx : RequestedCredentials) (k : String) : Option ReqCred :=
  findA (rcx.requested_predicates.getD []) k

/-- The requested-credentials values the final holder call received. -/
def finalRCs (L : List Event) : List RequestedCredentials :=
  L.filterMap (fun e => match e with
    | .holderCall r => some r
    | _ => none)

/-- The arguments of the `get_revoc_reg_delta` calls, in order. -/
def deltaCallsOf (L : List Event) : List (String × Nat × Nat × String) :=
  L.filterMap (fun e => match e with
    | .fetchDelta r f t c => some (r, f, t, c)
    | _ => none)

/-- The arguments of the `create_revocation_state` calls, in order. -/
def revStateCallsOf (L : List Event) : List (String × Nat × String) :=
  L.filterMap (fun e => match e with
    | .createRevState r ts c => some (r, ts, c)
    | _ => none)

def credA : CredentialRecord :=
  { schema_id := "S", cred_def_id := "D", rev_reg_id := some "R"
    cred_rev_id := some "1" }

def credB : CredentialRecord :=
  { schema_id := "S", cred_def_id := "D", rev_reg_id := none, cred_rev_id := none }

def credC : CredentialRecord :=
  { schema_id := "S2", cred_def_id := "D2", rev_reg_id := some "R"
    cred_rev_id := some "2" }

/-- A deterministic collaborator environment: three credentials, every
ledger object resolvable, the delta timestamp 150 for windows ending at
200 and 400 otherwise. -/
def envBase : Env :=
  { get_credential := fun c =>
      if c = "A" then .ok credA
      else if c = "B" then .ok credB
      else if c = "C" then .ok credC
      else .error ⟨"404", "not found"⟩
    get_schema := fun s => .ok ("schema:" ++ s)
    get_credential_definition := fun d => .ok ("creddef:" ++ d)
    get_revoc_reg_def := fun r => .ok ("regdef:" ++ r)
    get_revoc_reg_delta := fun _ _ t => .ok ("delta", if t = 200 then 150 else 400)
    get_or_fetch_local_tails_path := fun r => .ok ("/tails/" ++ r)
    create_revocation_state := fun _ _ _ ts _ => .ok ("state" ++ toString ts)
    create_presentation := fun _ _ _ _ _ => .ok "proof" }

/-- Like `envBase` but every delta resolves to timestamp 150. -/
def envSame : Env :=
  { envBase with get_revoc_reg_delta := fun _ _ _ => .ok ("delta", 150) }

/-- Like `envBase` but the cryptographic holder always fails. -/
def envHold : Env :=
  { envBase with create_revocation_state := fun _ _ _ _ _ => .error ⟨"E42", "boom"⟩ }

def prOne : ProofRequest :=
  { requested_attributes := [("a1", ⟨some ⟨some 100, some 200⟩⟩)]
    requested_predicates := [] }

def rcOne : RequestedCredentials :=
  { requested_attributes := some [("a1", ⟨"A", none⟩)]
    requested_predicates := some [] }

def rcOneTs : RequestedCredentials :=
  { requested_attributes := some [("a1", ⟨"A", some 999⟩)]
    requested_predicates := some [] }

def rcNoPred : RequestedCredentials :=
  { requested_attributes := some [("a1", ⟨"A", none⟩)]
    requested_predicates := none }

/-- The spec §8 scenario: attr1 and attr2 share revocable credential A,
pred1 uses non-revocable B, only attr1's group carries `[100, 200]`. -/
def prMain : ProofRequest :=
  { requested_attributes :=
      [("attr1", ⟨some ⟨some 100, some 200⟩⟩), ("attr2", ⟨none⟩)]
    requested_predicates := [("pred1", ⟨none⟩)] }

def rcMain : RequestedCredentials :=
  { requested_attributes := some [("attr1", ⟨"A", none⟩), ("attr2", ⟨"A", none⟩)]
    requested_predicates := some [("pred1", ⟨"B", none⟩)] }

/-- Two referents, distinct credentials A and C in the same registry R,
with differing intervals. -/
def prTwo : ProofRequest :=
  { requested_attributes :=
      [("a1", ⟨some ⟨some 100, some 200⟩⟩), ("a2", ⟨some ⟨some 100, some 300⟩⟩)]
    requested_predicates := [] }

def rcTwo : RequestedCredentials :=
  { requested_attributes := some [("a1", ⟨"A", none⟩), ("a2", ⟨"C", none⟩)]
    requested_predicates := some [] }

/-- Two referents on the same credential A with differing intervals. -/
def rcTwoSame : RequestedCredentials :=
  { requested_attributes := some [("a1", ⟨"A", none⟩), ("a2", ⟨"A", none⟩)]
    requested_predicates := some [] }

/-- Two referents, distinct credentials A and C in registry R, sharing the
same interval. -/
def prSameIv : ProofRequest :=
  { requested_attributes :=
      [("a1", ⟨some ⟨some 100, some 200⟩⟩), ("a2", ⟨some ⟨some 100, some 200⟩⟩)]
    requested_predicates := [] }

/-- One revocable attribute referent plus one non-revocable predicate
referent carrying a superfluous caller timestamp. -/
def prClean : ProofRequest :=
  { requested_attributes := [("a1", ⟨some ⟨some 100, some 200⟩⟩)]
    requested_predicates := [("p1", ⟨none⟩)] }

def rcClean : RequestedCredentials :=
  { requested_attributes := some [("a1", ⟨"A", none⟩)]
    requested_predicates := some [("p1", ⟨"B", some 5⟩)] }

/-! ## Claim theorems -/

/-- C1: `create_presentation` calls the credential store's `get_credential`
exactly once per distinct credential id referenced anywhere in the request:
for well-formed input whose referenced credentials all resolve, the
`get_credential` call count for an id `c` is 1 when some referent (attribute
or predicate) names `c` and 0 otherwise. -/
theorem claim1_get_credential_once_per_id (env : Env) (now : Nat)
    (pr : ProofRequest) (rc : RequestedCredentials) (c : String)
    (hwf : wfRC rc)
    (hok : ∀ c' ∈ sectionCredIds rc, ∃ cr, env.get_credential c' = .ok cr) :
    countGetCred (create_presentation env now pr rc).2 c =
      if c ∈ sectionCredIds rc then 1 else 0 := by
  obtain ⟨rest, hdec, hng⟩ := trace_decomp env now pr rc
  have hcred : credIdsOf (buildRequestedReferents pr rc) = sectionCredIds rc := by
    rw [buildRequestedReferents_eq pr rc hwf]
    exact precisOf_credIds pr rc
  rw [hdec, countGetCred_append, countGetCred_zero c hng, Nat.add_zero,
    fetchCredentials_count env c _ [] (by rw [hcred]; exact hok), hcred]
  simp [hasKey, findA]

theorem claim1_witness :
    countGetCred (create_presentation envBase 1000 prTwo rcTwo).2 "A" =
      if "A" ∈ sectionCredIds rcTwo then 1 else 0 :=
  claim1_get_credential_once_per_id envBase 1000 prTwo rcTwo "A" (by decide)
    (by
      intro c' hc'
      have hm : c' = "A" ∨ c' = "C" := by
        have he : sectionCredIds rcTwo = ["A", "C"] := rfl
        rw [he] at hc'
        simpa using hc'
      rcases hm with rfl | rfl
      · exact ⟨credA, rfl⟩
      · exact ⟨credC, rfl⟩)

/-- C2 counterexample: two referents (`a1`, `a2`) on the SAME credential `A`
with differing intervals `(100,200)` and `(100,300)` over registry `R` do
not get independent cache entries and timestamps: the key `(R,100,300)` is
never fetched (under `envBase` it would resolve to timestamp 400, not 150),
because the stamp loop writes `a1`'s timestamp 150 onto every referent of
credential `A`, after which `a2` is skipped; `a2` ends the build carrying
`a1`'s timestamp. -/
theorem claim2_counterexample :
    countDeltaFetch (create_presentation envBase 1000 prTwo rcTwoSame).2
        "R" 100 300 = 0 ∧
    finalRCs (create_presentation envBase 1000 prTwo rcTwoSame).2 =
      [{ requested_attributes :=
           some [("a1", { cred_id := "A", timestamp := some 150 }),
                 ("a2", { cred_id := "A", timestamp := some 150 })]
         requested_predicates := some [] }] := ⟨rfl, rfl⟩

/-- C2 (amended): on every input at most one `get_revoc_reg_delta` call is
made per distinct `(rev_reg_id, from, to)` key, and in a successful delta
phase all referents sharing one credential id carry the same resolved
timestamp; timestamps are shared per credential, not per interval key. -/
theorem claim2_delta_dedup_per_credential_stamp (env : Env) (now : Nat)
    (pr : ProofRequest) (rc : RequestedCredentials)
    (creds : AList CredentialRecord) (refts' : AList Precis)
    (deltas : AList DeltaEntry) (evs5 : List Event) (rid : String) (f t : Nat)
    (h5 : deltaLoop env creds now (buildRequestedReferents pr rc).length 0
      (buildRequestedReferents pr rc) [] = (.ok (refts', deltas), evs5)) :
    countDeltaFetch (create_presentation env now pr rc).2 rid f t ≤ 1 ∧
      SameTs refts' :=
  ⟨countDeltaFetch_le_one env now pr rc rid f t,
   deltaLoop_sameTs env creds now (buildRequestedReferents pr rc).length 0
     (buildRequestedReferents pr rc) refts' [] deltas
     (buildRequestedReferents_sameTs pr rc) (by rw [h5])⟩

theorem claim2_witness :
    countDeltaFetch (create_presentation envBase 1000 prOne rcOne).2
        "R" 100 200 ≤ 1 ∧
    SameTs [("a1", { cred_id := "A"
                     non_revoked := some { fro := some 100, til := some 200 }
                     timestamp := some 150 })] :=
  claim2_delta_dedup_per_credential_stamp envBase 1000 prOne rcOne
    [("A", credA)]
    [("a1", { cred_id := "A"
              non_revoked := some { fro := some 100, til := some 200 }
              timestamp := some 150 })]
    [("R_100_200", { rev_reg_id := "R", cred_id := "A", delta := "delta"
                     timestamp := 150 })]
    [.acquireLedger "R" .getRevocRegDelta, .fetchDelta "R" 100 200 "A",
     .releaseLedger]
    "R" 100 200 (by rfl)

/-- C9 counterexample: already the minimal run with one revocable credential
holds a single ledger handle across three distinct fetches (schema,
credential definition, revocation-registry definition), so the
one-fetch-per-handle discipline stated by the spec does not hold. -/
theorem claim9_counterexample :
    ¬ scopesOk 1 (create_presentation envBase 1000 prOne rcOne).2 := by
  decide

/-- C9 (amended): on every input, ledger handles are acquired and released
in a balanced, non-nested way, each handle is held across at most three
ledger fetches (the per-credential schema / credential-definition /
revocation-registry-definition block), and no ledger fetch happens outside
a handle scope. -/
theorem claim9_handle_scoping (env : Env) (now : Nat) (pr : ProofRequest)
    (rc : RequestedCredentials) :
    scopesOk 3 (create_presentation env now pr rc).2 :=
  scopesOk_create_presentation env now pr rc

/-- C3 counterexample: two delta-cache entries over registry `R` (distinct
credentials `A` and `C`, distinct intervals) both resolve to timestamp 150
under `envSame`, yet `create_revocation_state` is invoked twice for the
pair `(R, 150)`: the states loop has no `(rev_reg_id, timestamp)`
deduplication. -/
theorem claim3_counterexample :
    countRevState (create_presentation envSame 1000 prTwo rcTwo).2 "R" 150 = 2 :=
  rfl

/-- C3 (amended): in a successful build, `create_revocation_state` is
invoked exactly once per delta-cache entry (one per distinct
`(rev_reg_id, from, to)` key), not once per distinct
`(rev_reg_id, timestamp)` pair. -/
theorem claim3_one_state_call_per_delta_entry (env : Env) (now : Nat)
    (pr : ProofRequest) (rc : RequestedCredentials)
    (creds : AList CredentialRecord) (evs2 : List Event)
    (rc1 : RequestedCredentials) (evs3 : List Event) (lst : LedgerState)
    (evs4 : List Event) (refts' : AList Precis) (deltas : AList DeltaEntry)
    (evs5 : List Event) (states : AList (NList String)) (evs6 : List Event)
    (rc2 : RequestedCredentials)
    (h2 : fetchCredentials env (buildRequestedReferents pr rc) [] =
      (.ok creds, evs2))
    (h3 : cleanup rc creds = (.ok rc1, evs3))
    (h4 : ledgerObjects env creds ⟨[], [], []⟩ = (.ok lst, evs4))
    (h5 : deltaLoop env creds now (buildRequestedReferents pr rc).length 0
      (buildRequestedReferents pr rc) [] = (.ok (refts', deltas), evs5))
    (h6 : statesPhase env creds lst.revocation_registries deltas [] =
      (.ok states, evs6))
    (h7 : mergePhase refts' rc1 = .ok rc2) :
    countRevStateAll (create_presentation env now pr rc).2 = deltas.length := by
  have htr := create_presentation_pinned_trace env now pr rc creds evs2 rc1
    evs3 lst evs4 refts' deltas evs5 states evs6 rc2 h2 h3 h4 h5 h6 h7
  have z2 : countRevStateAll evs2 = 0 := countRevStateAll_zero (by
    have h := fetchCredentials_noRevState env (buildRequestedReferents pr rc) []
    rw [h2] at h
    exact h)
  have z3 : countRevStateAll evs3 = 0 := countRevStateAll_zero (by
    have h := cleanup_noRevState rc creds
    rw [h3] at h
    exact h)
  have z4 : countRevStateAll evs4 = 0 := countRevStateAll_zero (by
    have h := ledgerObjects_noRevState env creds ⟨[], [], []⟩
    rw [h4] at h
    exact h)
  have z5 : countRevStateAll evs5 = 0 := countRevStateAll_zero (by
    have h := deltaLoop_noRevState env creds now
      (buildRequestedReferents pr rc).length 0 (buildRequestedReferents pr rc) []
    rw [h5] at h
    exact h)
  have z6 : countRevStateAll evs6 = deltas.length := by
    have h := statesPhase_count_ok env creds lst.revocation_registries deltas
      [] states (by rw [h6])
    rw [h6] at h
    exact h
  have zh : countRevStateAll [Event.holderCall rc2] = 0 := rfl
  rw [htr, countRevStateAll_append, countRevStateAll_append,
    countRevStateAll_append, countRevStateAll_append, countRevStateAll_append,
    z2, z3, z4, z5, z6, zh]
  omega

theorem claim3_witness :
    countRevStateAll (create_presentation envBase 1000 prOne rcOne).2 =
      [("R_100_200", ({ rev_reg_id := "R", cred_id := "A", delta := "delta"
                        timestamp := 150 } : DeltaEntry))].length :=
  claim3_one_state_call_per_delta_entry envBase 1000 prOne rcOne
    [("A", credA)] [.getCredential "A"] rcOne []
    { schemas := [("S", "schema:S")], cred_defs := [("D", "creddef:D")]
      revocation_registries := [("R", "regdef:R")] }
    [.acquireLedger "S" .getSchema, .fetchSchema "S", .fetchCredDef "D",
     .fetchRevRegDef "R", .releaseLedger]
    [("a1", { cred_id := "A"
              non_revoked := some { fro := some 100, til := some 200 }
              timestamp := some 150 })]
    [("R_100_200", { rev_reg_id := "R", cred_id := "A", delta := "delta"
                     timestamp := 150 })]
    [.acquireLedger "R" .getRevocRegDelta, .fetchDelta "R" 100 200 "A",
     .releaseLedger]
    [("R", [(150, "state150")])]
    [.getTails "R", .createRevState "R" 150 "A"]
    { requested_attributes := some [("a1", { cred_id := "A"
                                             timestamp := some 150 })]
      requested_predicates := some [] }
    (by rfl) (by rfl) (by rfl) (by rfl) (by rfl) (by rfl)

/-- C4 counterexample: in the §8 scenario, `attr2` does NOT remain
unstamped: because it shares credential `A` with `attr1`, the stamp loop
(lines 163-166) writes `attr1`'s resolved timestamp 150 onto `attr2` as
well. -/
theorem claim4_counterexample :
    (finalRCs (create_presentation envBase 1000 prMain rcMain).2).map
        (fun r => attrEntry r "attr2") =
      [some { cred_id := "A", timestamp := some 150 }] := rfl

/-- C4 (amended): in the §8 scenario (attr1, attr2 -> revocable credential A
in registry R, pred1 -> non-revocable credential B, interval `[100,200]`
only on attr1's group) exactly one delta fetch occurs, with key
`(R,100,200)` triggered by `A`; BOTH `attr1` and `attr2` are stamped with
the resulting timestamp 150 (not attr1 alone); exactly one revocation-state
call is made, for `A`; and no revocation ledger endpoint is ever called for
`pred1`'s credential `B`. -/
theorem claim4_scenario_run :
    deltaCallsOf (create_presentation envBase 1000 prMain rcMain).2 =
      [("R", 100, 200, "A")] ∧
    revStateCallsOf (create_presentation envBase 1000 prMain rcMain).2 =
      [("R", 150, "A")] ∧
    finalRCs (create_presentation envBase 1000 prMain rcMain).2 =
      [{ requested_attributes :=
           some [("attr1", { cred_id := "A", timestamp := some 150 }),
                 ("attr2", { cred_id := "A", timestamp := some 150 })]
         requested_predicates :=
           some [("pred1", { cred_id := "B", timestamp := none })] }] :=
  ⟨rfl, rfl, rfl⟩

/-- C7 counterexample: two referents on distinct credentials `A` and `C`
(differing `cred_rev_id`) in the same registry `R` with the same interval
produce only ONE `create_revocation_state` call, for the caching credential
`A`; `C` never obtains a revocation state, contrary to the claimed
one-state-per-credential behaviour. -/
theorem claim7_counterexample :
    credA.cred_rev_id ≠ credC.cred_rev_id ∧
    revStateCallsOf (create_presentation envBase 1000 prSameIv rcTwo).2 =
      [("R", 150, "A")] := ⟨by decide, rfl⟩

/-- C7 (amended): two referents on distinct credentials `A` and `C` in the
same registry with the same resolved interval yield exactly one delta fetch
(triggered by `A`) and exactly one revocation-state build, keyed by the
single delta-cache entry and using only the cached first credential `A`,
even though the credentials' `cred_rev_id` differ; both referents are
stamped with the shared timestamp. -/
theorem claim7_scenario_run :
    deltaCallsOf (create_presentation envBase 1000 prSameIv rcTwo).2 =
      [("R", 100, 200, "A")] ∧
    revStateCallsOf (create_presentation envBase 1000 prSameIv rcTwo).2 =
      [("R", 150, "A")] ∧
    finalRCs (create_presentation envBase 1000 prSameIv rcTwo).2 =
      [{ requested_attributes :=
           some [("a1", { cred_id := "A", timestamp := some 150 }),
                 ("a2", { cred_id := "C", timestamp := some 150 })]
         requested_predicates := some [] }] :=
  ⟨rfl, rfl, rfl⟩

/-- C5 counterexample: referent `a1` of revocable credential `A` carries the
explicit caller-supplied timestamp 999, yet the build overwrites it with the
resolved timestamp 150: caller timestamps are never copied into the referent
map the delta loop consults, so the loop stamps the referent and the merge
step overwrites the entry. -/
theorem claim5_counterexample :
    attrEntry rcOneTs "a1" = some { cred_id := "A", timestamp := some 999 } ∧
    (finalRCs (create_presentation envBase 1000 prOne rcOneTs).2).map
        (fun r => attrEntry r "a1") =
      [some { cred_id := "A", timestamp := some 150 }] := ⟨rfl, rfl⟩

/-- C5 (amended): in a successful build every stamped referent's credential
is revocable, and each final requested-credentials section equals the
cleaned input section with every stamped referent's timestamp overwritten by
its resolved timestamp -- in particular a pre-existing caller-supplied
timestamp on a revocable credential's referent IS overwritten, not
preserved. -/
theorem claim5_stamp_revocable_and_merge_overwrites (env : Env) (now : Nat)
    (pr : ProofRequest) (rc : RequestedCredentials)
    (creds : AList CredentialRecord) (evs2 : List Event)
    (rc1 : RequestedCredentials) (evs3 : List Event) (lst : LedgerState)
    (evs4 : List Event) (refts' : AList Precis) (deltas : AList DeltaEntry)
    (evs5 : List Event) (states : AList (NList String)) (evs6 : List Event)
    (rc2 : RequestedCredentials)
    (hwf : wfRC rc)
    (hkeys : ∀ p ∈ (rc.requested_attributes.getD []) ++
      (rc.requested_predicates.getD []), hasKey creds p.2.cred_id = true)
    (h2 : fetchCredentials env (buildRequestedReferents pr rc) [] =
      (.ok creds, evs2))
    (h3 : cleanup rc creds = (.ok rc1, evs3))
    (h4 : ledgerObjects env creds ⟨[], [], []⟩ = (.ok lst, evs4))
    (h5 : deltaLoop env creds now (buildRequestedReferents pr rc).length 0
      (buildRequestedReferents pr rc) [] = (.ok (refts', deltas), evs5))
    (h6 : statesPhase env creds lst.revocation_registries deltas [] =
      (.ok states, evs6))
    (h7 : mergePhase refts' rc1 = .ok rc2) :
    RevStamped creds refts' ∧
    ∀ k, findA (rc2.requested_attributes.getD []) k =
        mergeSpec refts' ((cleanRC creds rc).requested_attributes.getD []) k ∧
      findA (rc2.requested_predicates.getD []) k =
        mergeSpec refts' ((cleanRC creds rc).requested_predicates.getD []) k := by
  have hrs : RevStamped creds refts' :=
    deltaLoop_revStamped env creds now (buildRequestedReferents pr rc).length 0
      (buildRequestedReferents pr rc) refts' [] deltas
      (buildRequestedReferents_revStamped creds pr rc) (by rw [h5])
  have hrc1 : rc1 = cleanRC creds rc := by
    have hok := cleanup_ok rc creds
      (fun p hp => hkeys p (List.mem_append_left _ hp))
      (fun p hp => hkeys p (List.mem_append_right _ hp))
    rw [h3] at hok
    exact Except.ok.inj hok
  have hkn : (keysOf refts').Nodup := by
    have hkeq := (deltaLoop_credIds env creds now
      (buildRequestedReferents pr rc).length 0 (buildRequestedReferents pr rc)
      refts' [] deltas (by rw [h5])).2
    rw [hkeq, buildRequestedReferents_eq pr rc hwf]
    exact precisOf_keys_nodup pr rc hwf
  subst hrc1
  exact ⟨hrs, fun k => mergePhase_char refts' (cleanRC creds rc) rc2 hkn h7 k⟩

theorem claim5_witness :
    RevStamped [("A", credA)]
      [("a1", { cred_id := "A"
                non_revoked := some { fro := some 100, til := some 200 }
                timestamp := some 150 })] ∧
    ∀ k, findA ((⟨some [("a1", { cred_id := "A", timestamp := some 150 })],
            some []⟩ :
          RequestedCredentials).requested_attributes.getD []) k =
        mergeSpec
          [("a1", { cred_id := "A"
                    non_revoked := some { fro := some 100, til := some 200 }
                    timestamp := some 150 })]
          ((cleanRC [("A", credA)] rcOneTs).requested_attributes.getD []) k ∧
      findA ((⟨some [("a1", { cred_id := "A", timestamp := some 150 })],
            some []⟩ :
          RequestedCredentials).requested_predicates.getD []) k =
        mergeSpec
          [("a1", { cred_id := "A"
                    non_revoked := some { fro := some 100, til := some 200 }
                    timestamp := some 150 })]
          ((cleanRC [("A", credA)] rcOneTs).requested_predicates.getD []) k :=
  claim5_stamp_revocable_and_merge_overwrites envBase 1000 prOne rcOneTs
    [("A", credA)] [.getCredential "A"] rcOneTs []
    { schemas := [("S", "schema:S")], cred_defs := [("D", "creddef:D")]
      revocation_registries := [("R", "regdef:R")] }
    [.acquireLedger "S" .getSchema, .fetchSchema "S", .fetchCredDef "D",
     .fetchRevRegDef "R", .releaseLedger]
    [("a1", { cred_id := "A"
              non_revoked := some { fro := some 100, til := some 200 }
              timestamp := some 150 })]
    [("R_100_200", { rev_reg_id := "R", cred_id := "A", delta := "delta"
                     timestamp := 150 })]
    [.acquireLedger "R" .getRevocRegDelta, .fetchDelta "R" 100 200 "A",
     .releaseLedger]
    [("R", [(150, "state150")])]
    [.getTails "R", .createRevState "R" 150 "A"]
    { requested_attributes := some [("a1", { cred_id := "A"
                                             timestamp := some 150 })]
      requested_predicates := some [] }
    (by decide) (by decide)
    (by rfl) (by rfl) (by rfl) (by rfl) (by rfl) (by rfl)

/-- C10: the merge step indexes both requested-credentials section keys
directly: whenever some referent received a resolved timestamp and the
input omits either section key, the build aborts with a KeyError (the
missing key's name), not one of the specified error kinds, even though
every earlier access tolerated the absence. -/
theorem claim10_missing_section_keyerror (env : Env) (now : Nat)
    (pr : ProofRequest) (rc : RequestedCredentials)
    (creds : AList CredentialRecord) (evs2 : List Event)
    (rc1 : RequestedCredentials) (evs3 : List Event) (lst : LedgerState)
    (evs4 : List Event) (refts' : AList Precis) (deltas : AList DeltaEntry)
    (evs5 : List Event) (states : AList (NList String)) (evs6 : List Event)
    (h2 : fetchCredentials env (buildRequestedReferents pr rc) [] =
      (.ok creds, evs2))
    (h3 : cleanup rc creds = (.ok rc1, evs3))
    (h4 : ledgerObjects env creds ⟨[], [], []⟩ = (.ok lst, evs4))
    (h5 : deltaLoop env creds now (buildRequestedReferents pr rc).length 0
      (buildRequestedReferents pr rc) [] = (.ok (refts', deltas), evs5))
    (h6 : statesPhase env creds lst.revocation_registries deltas [] =
      (.ok states, evs6))
    (hstamp : ∃ q ∈ refts', q.2.timestamp.isSome = true)
    (hmiss : rc.requested_attributes = none ∨ rc.requested_predicates = none) :
    ∃ key, (create_presentation env now pr rc).1 = .error (.keyError key) := by
  have hnone := cleanup_none rc creds rc1 evs3 h3
  have hmiss1 : rc1.requested_attributes = none ∨
      rc1.requested_predicates = none := by
    rcases hmiss with h | h
    · exact Or.inl (hnone.1 h)
    · exact Or.inr (hnone.2 h)
  obtain ⟨key, hkey⟩ := mergePhase_err refts' rc1 hstamp hmiss1
  refine ⟨key, ?_⟩
  rw [create_presentation_mergeErr env now pr rc creds evs2 rc1 evs3 lst evs4
    refts' deltas evs5 states evs6 _ h2 h3 h4 h5 h6 hkey]

theorem claim10_witness :
    ∃ key, (create_presentation envBase 1000 prOne rcNoPred).1 =
      .error (.keyError key) :=
  claim10_missing_section_keyerror envBase 1000 prOne rcNoPred
    [("A", credA)] [.getCredential "A"]
    { requested_attributes := some [("a1", { cred_id := "A"
                                             timestamp := none })]
      requested_predicates := none }
    []
    { schemas := [("S", "schema:S")], cred_defs := [("D", "creddef:D")]
      revocation_registries := [("R", "regdef:R")] }
    [.acquireLedger "S" .getSchema, .fetchSchema "S", .fetchCredDef "D",
     .fetchRevRegDef "R", .releaseLedger]
    [("a1", { cred_id := "A"
              non_revoked := some { fro := some 100, til := some 200 }
              timestamp := some 150 })]
    [("R_100_200", { rev_reg_id := "R", cred_id := "A", delta := "delta"
                     timestamp := 150 })]
    [.acquireLedger "R" .getRevocRegDelta, .fetchDelta "R" 100 200 "A",
     .releaseLedger]
    [("R", [(150, "state150")])]
    [.getTails "R", .createRevState "R" 150 "A"]
    (by rfl) (by rfl) (by rfl) (by rfl) (by rfl)
    ⟨("a1", { cred_id := "A"
              non_revoked := some { fro := some 100, til := some 200 }
              timestamp := some 150 }), by simp, rfl⟩
    (Or.inr rfl)

/-- C6: for a referent of a non-revocable credential (no rev_reg_id), any
caller-supplied timestamp is removed from that referent's entry in the
final requested-credentials structure (without an error: the run shown is a
successful one), and no revocation delta fetch or revocation-state
computation is ever performed for that credential. -/
theorem claim6_nonrevocable_cleanup_no_revoc_calls (env : Env) (now : Nat)
    (pr : ProofRequest) (rc : RequestedCredentials)
    (creds : AList CredentialRecord) (evs2 : List Event)
    (rc1 : RequestedCredentials) (evs3 : List Event) (lst : LedgerState)
    (evs4 : List Event) (refts' : AList Precis) (deltas : AList DeltaEntry)
    (evs5 : List Event) (states : AList (NList String)) (evs6 : List Event)
    (rc2 : RequestedCredentials) (k : String) (item : ReqCred)
    (cred : CredentialRecord)
    (hwf : wfRC rc)
    (hkeys : ∀ p ∈ (rc.requested_attributes.getD []) ++
      (rc.requested_predicates.getD []), hasKey creds p.2.cred_id = true)
    (hcred : findA creds item.cred_id = some cred)
    (hnonrev : truthyStr cred.rev_reg_id = false)
    (h2 : fetchCredentials env (buildRequestedReferents pr rc) [] =
      (.ok creds, evs2))
    (h3 : cleanup rc creds = (.ok rc1, evs3))
    (h4 : ledgerObjects env creds ⟨[], [], []⟩ = (.ok lst, evs4))
    (h5 : deltaLoop env creds now (buildRequestedReferents pr rc).length 0
      (buildRequestedReferents pr rc) [] = (.ok (refts', deltas), evs5))
    (h6 : statesPhase env creds lst.revocation_registries deltas [] =
      (.ok states, evs6))
    (h7 : mergePhase refts' rc1 = .ok rc2) :
    (findA (rc.requested_attributes.getD []) k = some item →
      findA (rc2.requested_attributes.getD []) k =
        some { cred_id := item.cred_id, timestamp := none }) ∧
    (findA (rc.requested_predicates.getD []) k = some item →
      findA (rc2.requested_predicates.getD []) k =
        some { cred_id := item.cred_id, timestamp := none }) ∧
    (∀ e ∈ (create_presentation env now pr rc).2, ∀ r a b,
      e ≠ Event.fetchDelta r a b item.cred_id) ∧
    (∀ e ∈ (create_presentation env now pr rc).2, ∀ r ts,
      e ≠ Event.createRevState r ts item.cred_id) := by
  have hrs : RevStamped creds refts' :=
    deltaLoop_revStamped env creds now (buildRequestedReferents pr rc).length 0
      (buildRequestedReferents pr rc) refts' [] deltas
      (buildRequestedReferents_revStamped creds pr rc) (by rw [h5])
  have hrc1 : rc1 = cleanRC creds rc := by
    have hok := cleanup_ok rc creds
      (fun p hp => hkeys p (List.mem_append_left _ hp))
      (fun p hp => hkeys p (List.mem_append_right _ hp))
    rw [h3] at hok
    exact Except.ok.inj hok
  have hkn : (keysOf refts').Nodup := by
    have hkeq := (deltaLoop_credIds env creds now
      (buildRequestedReferents pr rc).length 0 (buildRequestedReferents pr rc)
      refts' [] deltas (by rw [h5])).2
    rw [hkeq, buildRequestedReferents_eq pr rc hwf]
    exact precisOf_keys_nodup pr rc hwf
  have hfind := (deltaLoop_credIds env creds now
    (buildRequestedReferents pr rc).length 0 (buildRequestedReferents pr rc)
    refts' [] deltas (by rw [h5])).1
  subst hrc1
  have hmc := mergePhase_char refts' (cleanRC creds rc) rc2 hkn h7 k
  have hclean : cleanVal creds item =
      { cred_id := item.cred_id, timestamp := none } := by
    rw [cleanVal, hcred]
    simp [hnonrev]
  -- an unstamped final referent entry, given the referent's slot in the map
  have hstep : ∀ (p : Precis), findA refts' k = some p →
      p.cred_id = item.cred_id → p.timestamp = none := by
    intro p hq hpc
    cases hts' : p.timestamp with
    | none => rfl
    | some v =>
      exfalso
      have hrs' : ∃ cred', findA creds p.cred_id = some cred' ∧
          truthyStr cred'.rev_reg_id = true :=
        hrs (k, p) (findA_mem hq) (by rw [hts']; rfl)
      obtain ⟨cred', hc', hr'⟩ := hrs'
      rw [hpc, hcred] at hc'
      cases hc'
      rw [hr'] at hnonrev
      simp at hnonrev
  have htr := create_presentation_pinned_trace env now pr rc creds evs2
    (cleanRC creds rc) evs3 lst evs4 refts' deltas evs5 states evs6 rc2
    h2 h3 h4 h5 h6 h7
  have hCR : CacheRev creds deltas :=
    deltaLoop_cacheRev env creds now (buildRequestedReferents pr rc).length 0
      (buildRequestedReferents pr rc) refts' [] deltas
      (fun q hq => absurd hq (List.not_mem_nil q)) (by rw [h5])
  refine ⟨?_, ?_, ?_, ?_⟩
  · intro hA
    have h0 : findA (buildRequestedReferents pr rc) k =
        some (toPrecis pr.requested_attributes (nonRevocIntervals pr)
          (k, item)).2 := by
      rw [buildRequestedReferents_eq pr rc hwf]
      exact precisOf_findA_attr pr rc k item hA
    have hmap := hfind k
    rw [h0] at hmap
    cases hq : findA refts' k with
    | none => rw [hq] at hmap; simp at hmap
    | some p =>
      rw [hq] at hmap
      simp at hmap
      have hpc : p.cred_id = item.cred_id := hmap
      have hts : p.timestamp = none := hstep p hq hpc
      rw [hmc.1]
      simp only [mergeSpec, hq, hts]
      rw [(cleanRC_findA creds rc k).1, hA, Option.map_some', hclean]
  · intro hP
    have h0 : findA (buildRequestedReferents pr rc) k =
        some (toPrecis pr.requested_predicates (nonRevocIntervals pr)
          (k, item)).2 := by
      rw [buildRequestedReferents_eq pr rc hwf]
      exact precisOf_findA_pred pr rc k item hwf hP
    have hmap := hfind k
    rw [h0] at hmap
    cases hq : findA refts' k with
    | none => rw [hq] at hmap; simp at hmap
    | some p =>
      rw [hq] at hmap
      simp at hmap
      have hpc : p.cred_id = item.cred_id := hmap
      have hts : p.timestamp = none := hstep p hq hpc
      rw [hmc.2]
      simp only [mergeSpec, hq, hts]
      rw [(cleanRC_findA creds rc k).2, hP, Option.map_some', hclean]
  · rw [htr]
    intro e he r a b
    simp only [List.mem_append] at he
    rcases he with ((((he | he) | he) | he) | he) | he
    · have hev : (fetchCredentials env (buildRequestedReferents pr rc) []).2 =
          evs2 := by rw [h2]
      rw [← hev] at he
      obtain ⟨c', rfl⟩ :=
        fetchCredentials_events_shape env (buildRequestedReferents pr rc) [] e he
      simp
    · have hev : (cleanup rc creds).2 = evs3 := by rw [h3]
      rw [← hev] at he
      obtain ⟨x, y, z, rfl⟩ := cleanup_events rc creds e he
      simp
    · have hev : (ledgerObjects env creds ⟨[], [], []⟩).2 = evs4 := by rw [h4]
      rw [← hev] at he
      have hobj := ledgerObjects_events env creds ⟨[], [], []⟩ e he
      rintro rfl
      simp [isObjEvent] at hobj
    · have hev : (deltaLoop env creds now (buildRequestedReferents pr rc).length
          0 (buildRequestedReferents pr rc) []).2 = evs5 := by rw [h5]
      rw [← hev] at he
      exact deltaLoop_noDelta_for env creds now
        (buildRequestedReferents pr rc).length 0 (buildRequestedReferents pr rc)
        [] item.cred_id cred hcred hnonrev e he r a b
    · have hev : (statesPhase env creds lst.revocation_registries deltas []).2 =
          evs6 := by rw [h6]
      rw [← hev] at he
      rcases statesPhase_events env creds lst.revocation_registries deltas [] e
          he with ⟨x, rfl⟩ | ⟨x, y, rfl⟩ | ⟨q, -, rfl⟩ <;> simp
    · simp only [List.mem_singleton] at he
      subst he
      simp
  · rw [htr]
    intro e he r ts
    simp only [List.mem_append] at he
    rcases he with ((((he | he) | he) | he) | he) | he
    · have hev : (fetchCredentials env (buildRequestedReferents pr rc) []).2 =
          evs2 := by rw [h2]
      rw [← hev] at he
      obtain ⟨c', rfl⟩ :=
        fetchCredentials_events_shape env (buildRequestedReferents pr rc) [] e he
      simp
    · have hev : (cleanup rc creds).2 = evs3 := by rw [h3]
      rw [← hev] at he
      obtain ⟨x, y, z, rfl⟩ := cleanup_events rc creds e he
      simp
    · have hev : (ledgerObjects env creds ⟨[], [], []⟩).2 = evs4 := by rw [h4]
      rw [← hev] at he
      have hobj := ledgerObjects_events env creds ⟨[], [], []⟩ e he
      rintro rfl
      simp [isObjEvent] at hobj
    · have hev : (deltaLoop env creds now (buildRequestedReferents pr rc).length
          0 (buildRequestedReferents pr rc) []).2 = evs5 := by rw [h5]
      rw [← hev] at he
      rcases deltaLoop_events env creds now (buildRequestedReferents pr rc).length
          0 (buildRequestedReferents pr rc) [] e he with
        ⟨idf, rfl⟩ | rfl | ⟨a', b', d', c', rfl, -⟩ <;> simp
    · have hev : (statesPhase env creds lst.revocation_registries deltas []).2 =
          evs6 := by rw [h6]
      rw [← hev] at he
      exact statesPhase_noRevState_for env creds lst.revocation_registries
        deltas [] item.cred_id cred hCR hcred hnonrev e he r ts
    · simp only [List.mem_singleton] at he
      subst he
      simp

theorem claim6_witness :
    (findA (rcClean.requested_attributes.getD []) "p1" =
        some { cred_id := "B", timestamp := some 5 } →
      findA ((⟨some [("a1", { cred_id := "A", timestamp := some 150 })],
          some [("p1", { cred_id := "B", timestamp := none })]⟩ :
          RequestedCredentials).requested_attributes.getD []) "p1" =
        some { cred_id := "B", timestamp := none }) ∧
    (findA (rcClean.requested_predicates.getD []) "p1" =
        some { cred_id := "B", timestamp := some 5 } →
      findA ((⟨some [("a1", { cred_id := "A", timestamp := some 150 })],
          some [("p1", { cred_id := "B", timestamp := none })]⟩ :
          RequestedCredentials).requested_predicates.getD []) "p1" =
        some { cred_id := "B", timestamp := none }) ∧
    (∀ e ∈ (create_presentation envBase 1000 prClean rcClean).2, ∀ r a b,
      e ≠ Event.fetchDelta r a b "B") ∧
    (∀ e ∈ (create_presentation envBase 1000 prClean rcClean).2, ∀ r ts,
      e ≠ Event.createRevState r ts "B") :=
  claim6_nonrevocable_cleanup_no_revoc_calls envBase 1000 prClean rcClean
    [("A", credA), ("B", credB)] [.getCredential "A", .getCredential "B"]
    ⟨some [("a1", { cred_id := "A", timestamp := none })],
     some [("p1", { cred_id := "B", timestamp := none })]⟩
    [.logRemovedTimestamp "requested_predicates" "p1" "B"]
    { schemas := [("S", "schema:S")], cred_defs := [("D", "creddef:D")]
      revocation_registries := [("R", "regdef:R")] }
    [.acquireLedger "S" .getSchema, .fetchSchema "S", .fetchCredDef "D",
     .fetchRevRegDef "R", .releaseLedger, .acquireLedger "S" .getSchema,
     .releaseLedger]
    [("a1", { cred_id := "A"
              non_revoked := some { fro := some 100, til := some 200 }
              timestamp := some 150 }),
     ("p1", { cred_id := "B", non_revoked := none, timestamp := none })]
    [("R_100_200", { rev_reg_id := "R", cred_id := "A", delta := "delta"
                     timestamp := 150 })]
    [.acquireLedger "R" .getRevocRegDelta, .fetchDelta "R" 100 200 "A",
     .releaseLedger]
    [("R", [(150, "state150")])]
    [.getTails "R", .createRevState "R" 150 "A"]
    ⟨some [("a1", { cred_id := "A", timestamp := some 150 })],
     some [("p1", { cred_id := "B", timestamp := none })]⟩
    "p1" { cred_id := "B", timestamp := some 5 } credB
    (by decide) (by decide) (by rfl) (by rfl)
    (by rfl) (by rfl) (by rfl) (by rfl) (by rfl) (by rfl)

/-- C8: when the cryptographic holder's `create_revocation_state` call
fails, `create_presentation` does not retry it (exactly one state call in
the whole trace), logs the failure with the holder error's code and
message, and re-raises the same error so the build aborts; no proof value
is returned to the caller (the final holder `create_presentation` call
never happens). -/
theorem claim8_holder_failure_aborts (env : Env) (now : Nat)
    (pr : ProofRequest) (rc : RequestedCredentials)
    (creds : AList CredentialRecord) (evs2 : List Event)
    (rc1 : RequestedCredentials) (evs3 : List Event) (lst : LedgerState)
    (evs4 : List Event) (refts' : AList Precis) (k0 : String)
    (entry : DeltaEntry) (rest : List (String × DeltaEntry))
    (evs5 : List Event) (regDef tp : String) (cred : CredentialRecord)
    (err : HolderError)
    (h2 : fetchCredentials env (buildRequestedReferents pr rc) [] =
      (.ok creds, evs2))
    (h3 : cleanup rc creds = (.ok rc1, evs3))
    (h4 : ledgerObjects env creds ⟨[], [], []⟩ = (.ok lst, evs4))
    (h5 : deltaLoop env creds now (buildRequestedReferents pr rc).length 0
      (buildRequestedReferents pr rc) [] =
      (.ok (refts', (k0, entry) :: rest), evs5))
    (hreg : findA lst.revocation_registries entry.rev_reg_id = some regDef)
    (htails : env.get_or_fetch_local_tails_path entry.rev_reg_id = .ok tp)
    (hcred : findA creds entry.cred_id = some cred)
    (hhold : env.create_revocation_state cred.cred_rev_id regDef entry.delta
      entry.timestamp tp = .error err) :
    create_presentation env now pr rc =
      (.error (.holder err.error_code err.message),
       evs2 ++ evs3 ++ evs4 ++ evs5 ++
         [.getTails entry.rev_reg_id,
          .createRevState entry.rev_reg_id entry.timestamp entry.cred_id,
          .logError err.error_code err.message]) ∧
    countRevStateAll (create_presentation env now pr rc).2 = 1 ∧
    ∀ rcx, Event.holderCall rcx ∉ (create_presentation env now pr rc).2 := by
  have h6 := statesPhase_cons_holderErr env creds lst.revocation_registries k0
    entry rest [] regDef tp cred err hreg htails hcred hhold
  have hmain := create_presentation_statesErr env now pr rc creds evs2 rc1 evs3
    lst evs4 refts' ((k0, entry) :: rest) evs5
    (.holder err.error_code err.message)
    [.getTails entry.rev_reg_id,
     .createRevState entry.rev_reg_id entry.timestamp entry.cred_id,
     .logError err.error_code err.message]
    h2 h3 h4 h5 h6
  have htr : (create_presentation env now pr rc).2 =
      evs2 ++ evs3 ++ evs4 ++ evs5 ++
        [.getTails entry.rev_reg_id,
         .createRevState entry.rev_reg_id entry.timestamp entry.cred_id,
         .logError err.error_code err.message] := by
    rw [hmain]
  refine ⟨hmain, ?_, ?_⟩
  · have z2 : countRevStateAll evs2 = 0 := countRevStateAll_zero (by
      have h := fetchCredentials_noRevState env (buildRequestedReferents pr rc) []
      rw [h2] at h
      exact h)
    have z3 : countRevStateAll evs3 = 0 := countRevStateAll_zero (by
      have h := cleanup_noRevState rc creds
      rw [h3] at h
      exact h)
    have z4 : countRevStateAll evs4 = 0 := countRevStateAll_zero (by
      have h := ledgerObjects_noRevState env creds ⟨[], [], []⟩
      rw [h4] at h
      exact h)
    have z5 : countRevStateAll evs5 = 0 := countRevStateAll_zero (by
      have h := deltaLoop_noRevState env creds now
        (buildRequestedReferents pr rc).length 0
        (buildRequestedReferents pr rc) []
      rw [h5] at h
      exact h)
    have zt : countRevStateAll
        [Event.getTails entry.rev_reg_id,
         Event.createRevState entry.rev_reg_id entry.timestamp entry.cred_id,
         Event.logError err.error_code err.message] = 1 := rfl
    rw [htr, countRevStateAll_append, countRevStateAll_append,
      countRevStateAll_append, countRevStateAll_append, z2, z3, z4, z5, zt]
  · intro rcx hmem
    rw [htr] at hmem
    simp only [List.mem_append] at hmem
    rcases hmem with (((hm | hm) | hm) | hm) | hm
    · have hev : (fetchCredentials env (buildRequestedReferents pr rc) []).2 =
          evs2 := by rw [h2]
      rw [← hev] at hm
      exact fetchCredentials_noHolderCall env (buildRequestedReferents pr rc)
        [] _ hm rcx rfl
    · have hev : (cleanup rc creds).2 = evs3 := by rw [h3]
      rw [← hev] at hm
      exact cleanup_noHolderCall rc creds _ hm rcx rfl
    · have hev : (ledgerObjects env creds ⟨[], [], []⟩).2 = evs4 := by rw [h4]
      rw [← hev] at hm
      exact ledgerObjects_noHolderCall env creds ⟨[], [], []⟩ _ hm rcx rfl
    · have hev : (deltaLoop env creds now (buildRequestedReferents pr rc).length
          0 (buildRequestedReferents pr rc) []).2 = evs5 := by rw [h5]
      rw [← hev] at hm
      exact deltaLoop_noHolderCall env creds now
        (buildRequestedReferents pr rc).length 0
        (buildRequestedReferents pr rc) [] _ hm rcx rfl
    · simp at hm

theorem claim8_witness :
    create_presentation envHold 1000 prOne rcOne =
      (.error (.holder "E42" "boom"),
       [.getCredential "A"] ++ [] ++
         [.acquireLedger "S" .getSchema, .fetchSchema "S", .fetchCredDef "D",
          .fetchRevRegDef "R", .releaseLedger] ++
         [.acquireLedger "R" .getRevocRegDelta, .fetchDelta "R" 100 200 "A",
          .releaseLedger] ++
         [.getTails "R", .createRevState "R" 150 "A",
          .logError "E42" "boom"]) ∧
    countRevStateAll (create_presentation envHold 1000 prOne rcOne).2 = 1 ∧
    ∀ rcx, Event.holderCall rcx ∉
      (create_presentation envHold 1000 prOne rcOne).2 :=
  claim8_holder_failure_aborts envHold 1000 prOne rcOne
    [("A", credA)] [.getCredential "A"] rcOne []
    { schemas := [("S", "schema:S")], cred_defs := [("D", "creddef:D")]
      revocation_registries := [("R", "regdef:R")] }
    [.acquireLedger "S" .getSchema, .fetchSchema "S", .fetchCredDef "D",
     .fetchRevRegDef "R", .releaseLedger]
    [("a1", { cred_id := "A"
              non_revoked := some { fro := some 100, til := some 200 }
              timestamp := some 150 })]
    "R_100_200"
    { rev_reg_id := "R", cred_id := "A", delta := "delta", timestamp := 150 }
    []
    [.acquireLedger "R" .getRevocRegDelta, .fetchDelta "R" 100 200 "A",
     .releaseLedger]
    "regdef:R" "/tails/R" credA { error_code := "E42", message := "boom" }
    (by rfl) (by rfl) (by rfl) (by rfl) (by rfl) (by rfl) (by rfl) (by rfl)

end StaticProof
